import Mathlib

/-!
Verification of the `DumpParser` streaming parser from `src/trace/DumpParser.ts`
of the vscode-kaoto repository.  Lines are modelled as lists of characters;
the JavaScript regular expressions used by the source are translated into
deterministic character scanners; the parser's mutable fields become a state
record, and the two `setTimeout` debounce timers become counters of live
(scheduled, not yet cancelled) callbacks together with a flag recording
whether the parser still holds a handle to the most recently armed one.
-/

namespace KaotoTrace

/-- Lines are lists of characters. -/
abbrev Str := List Char

/-- Shorthand turning a Lean string literal into our line representation. -/
def lit (s : String) : Str := s.toList

/-- The escape character starting an ANSI colour sequence. -/
def escCh : Char := Char.ofNat 27

/-- JavaScript regex whitespace class members that can occur in a text line
(space, tab, newline, carriage return, vertical tab, form feed). -/
def isWsCh (c : Char) : Bool :=
  c = ' ' || c = '\t' || c = '\n' || c = '\r' || c = Char.ofNat 11 || c = Char.ofNat 12

/-- ASCII decimal digit, as in the regex class `[0-9]`. -/
def isDigitCh (c : Char) : Bool := '0' ≤ c && c ≤ '9'

/-- Member of the regex class `[A-Za-z0-9-]`. -/
def isAlnumHyphenCh (c : Char) : Bool :=
  ('A' ≤ c && c ≤ 'Z') || ('a' ≤ c && c ≤ 'z') || isDigitCh c || c = '-'

/-- Member of the regex word class `\w` = `[A-Za-z0-9_]`, used for `\b`. -/
def isWordCh (c : Char) : Bool :=
  ('A' ≤ c && c ≤ 'Z') || ('a' ≤ c && c ≤ 'z') || isDigitCh c || c = '_'

/-- ASCII lower-casing, for the case-insensitive `/^(Completed|Processed)\b/i` test. -/
def lowerCh (c : Char) : Char :=
  if 'A' ≤ c && c ≤ 'Z' then Char.ofNat (c.toNat + 32) else c

/-- UTF-8 byte length of one character, as computed by `Buffer.byteLength(-, 'utf8')`. -/
def utf8Len (c : Char) : Nat :=
  if c.toNat < 128 then 1 else if c.toNat < 2048 then 2 else if c.toNat < 65536 then 3 else 4

/-- UTF-8 byte length of a line. -/
def byteLenStr (l : Str) : Nat := (l.map utf8Len).sum

/-- Drop leading regex whitespace (`\s*`). -/
def dropWs (l : Str) : Str := l.dropWhile isWsCh

/-- Remove trailing regex whitespace. -/
def rtrimWs (l : Str) : Str := (dropWs l.reverse).reverse

/-- JavaScript `String.prototype.trim`. -/
def trimWs (l : Str) : Str := rtrimWs (dropWs l)

/-- Consume an exact literal prefix, returning the rest of the line. -/
def dropLit : Str → Str → Option Str
  | [], l => some l
  | _ :: _, [] => none
  | p :: ps, c :: cs => if c = p then dropLit ps cs else none

/-- Digits of a token interpreted as a decimal number (JavaScript `Number` on
a digit-only capture group). -/
def digitsToNat (l : Str) : Nat :=
  l.foldl (fun acc c => acc * 10 + (c.toNat - 48)) 0

/-- Decimal digit characters of a natural number, accumulator form. -/
def natDigitsGo : Nat → Nat → Str → Str
  | 0, _, acc => acc
  | _ + 1, n, acc =>
    if n < 10 then Char.ofNat (48 + n) :: acc
    else natDigitsGo n (n / 10) (Char.ofNat (48 + n % 10) :: acc)

/-- JavaScript `String(n)` for a natural number. -/
def natDigits (n : Nat) : Str := natDigitsGo (n + 1) n []

/-- Worker for whitespace splitting: `cur` holds the characters of the token
being scanned, in reverse order. -/
def splitWsGo (cur : Str) : Str → List Str
  | [] => if cur = [] then [] else [cur.reverse]
  | c :: r =>
    if isWsCh c then
      if cur = [] then splitWsGo [] r else cur.reverse :: splitWsGo [] r
    else splitWsGo (c :: cur) r

/-- JavaScript `s.split(/\s+/)` on an already trimmed string (the source always
trims first; the sole difference, a singleton empty token for the empty string,
never satisfies any token test in the source). -/
def splitWs (l : Str) : List Str := splitWsGo [] l

/-! ### ANSI stripping

`stripAnsi` (DumpParser.ts line 209) is
`text.replace(/\u001b\[[0-9;]*m/g, '')`.  The global replace scans left to
right; a failed match attempt at an escape character resumes at the next
character, and no character of a failed attempt other than its leading escape
can itself start a match.  This is implemented as a single-pass automaton
whose state buffers a potential sequence prefix. -/

/-- Member of the regex class `[0-9;]` inside an ANSI sequence. -/
def isAnsiParamCh (c : Char) : Bool := isDigitCh c || c = ';'

/-- Scanner state: nothing pending, a pending escape, or a pending
`escape [ params` prefix (params kept in order). -/
inductive AnsiSt
  | base
  | esc
  | params (ds : Str)
deriving DecidableEq

/-- One transition: characters to output, and the next state. -/
def ansiStep : AnsiSt → Char → (Str × AnsiSt)
  | .base, c => if c = escCh then ([], .esc) else ([c], .base)
  | .esc, c =>
    if c = '[' then ([], .params [])
    else if c = escCh then ([escCh], .esc)
    else ([escCh, c], .base)
  | .params ds, c =>
    if isAnsiParamCh c then ([], .params (ds ++ [c]))
    else if c = 'm' then ([], .base)
    else if c = escCh then (escCh :: '[' :: ds, .esc)
    else ((escCh :: '[' :: ds) ++ [c], .base)

/-- Characters a pending prefix contributes when input ends inside it. -/
def ansiFlush : AnsiSt → Str
  | .base => []
  | .esc => [escCh]
  | .params ds => escCh :: '[' :: ds

def stripAnsiGo (st : AnsiSt) : Str → Str
  | [] => ansiFlush st
  | c :: r =>
    let p := ansiStep st c
    p.1 ++ stripAnsiGo p.2 r

/-- `stripAnsi` of DumpParser.ts line 207-210. -/
def stripAnsi (l : Str) : Str := stripAnsiGo .base l

/-! ### Log-prefix stripping and preprocessing -/

/-- Worker scanning for the first `|`; per `replace(/^[^|]*\|\s+/, '')` the
pipe must be followed by at least one whitespace character, which is removed
together with the whole greedy whitespace run. -/
def stripLogTagGo : Str → Option Str
  | [] => none
  | c :: r =>
    if c = '|' then
      match r with
      | c2 :: r2 => if isWsCh c2 then some (dropWs r2) else none
      | [] => none
    else stripLogTagGo r

/-- The `noAnsi.replace(/^[^|]*\|\s+/, '')` step of `preprocess`
(DumpParser.ts line 24). -/
def stripLogTag (l : Str) : Str :=
  match stripLogTagGo l with
  | some rest => rest
  | none => l

/-- `preprocess` of DumpParser.ts lines 21-25. -/
def preprocess (l : Str) : Str := stripLogTag (stripAnsi l)

/-! ### The header line regex

`headerRegex` (DumpParser.ts line 29) is
`^(\d{4}-\d{2}-\d{2} \d{2}:\d{2}:\d{2}\.\d{3})\s+\d+\s+---\s+\[[^\]]*]\s+([^:]+)\s*:\s*(\d+)\s*-\s*(.*)$`.
Every quantifier in it is determinate except the `\s+([^:]+)` pair after the
bracket group: both classes can match whitespace, so when the segment before
the first colon is all whitespace the engine backtracks to give `[^:]+` the
final space.  The translation below reproduces exactly that behaviour. -/

/-- Consume exactly `n` decimal digits, returning them and the rest. -/
def takeDigits : Nat → Str → Option (Str × Str)
  | 0, l => some ([], l)
  | _ + 1, [] => none
  | n + 1, c :: r =>
    if isDigitCh c then
      match takeDigits n r with
      | some (ds, rest) => some (c :: ds, rest)
      | none => none
    else none

/-- Consume one exact character. -/
def expectCh (c : Char) : Str → Option Str
  | [] => none
  | c2 :: r => if c2 = c then some r else none

/-- Consume `\s+`: at least one whitespace character, maximal munch. -/
def ws1 : Str → Option Str
  | [] => none
  | c :: r => if isWsCh c then some (dropWs r) else none

/-- Consume `\d+`: at least one digit, maximal munch, returning the digits. -/
def digits1 : Str → Option (Str × Str)
  | [] => none
  | c :: r =>
    if isDigitCh c then some ((c :: r).takeWhile isDigitCh, (c :: r).dropWhile isDigitCh)
    else none

/-- Consume the timestamp `\d{4}-\d{2}-\d{2} \d{2}:\d{2}:\d{2}\.\d{3}`,
returning the matched characters (capture group 1) and the rest. -/
def parseTimestamp (l : Str) : Option (Str × Str) :=
  match takeDigits 4 l with
  | none => none
  | some (d1, l) =>
  match expectCh '-' l with
  | none => none
  | some l =>
  match takeDigits 2 l with
  | none => none
  | some (d2, l) =>
  match expectCh '-' l with
  | none => none
  | some l =>
  match takeDigits 2 l with
  | none => none
  | some (d3, l) =>
  match expectCh ' ' l with
  | none => none
  | some l =>
  match takeDigits 2 l with
  | none => none
  | some (d4, l) =>
  match expectCh ':' l with
  | none => none
  | some l =>
  match takeDigits 2 l with
  | none => none
  | some (d5, l) =>
  match expectCh ':' l with
  | none => none
  | some l =>
  match takeDigits 2 l with
  | none => none
  | some (d6, l) =>
  match expectCh '.' l with
  | none => none
  | some l =>
  match takeDigits 3 l with
  | none => none
  | some (d7, l) =>
    some (d1 ++ '-' :: d2 ++ '-' :: d3 ++ ' ' :: d4 ++ ':' :: d5 ++ ':' :: d6 ++ '.' :: d7, l)

/-- The `\s+([^:]+)\s*:` part after the bracket group: the segment before the
first colon must start with whitespace and have length at least two; capture
group 2 is the segment minus its maximal leading whitespace run, except that
an all-whitespace segment yields its final character (the backtracking case). -/
def parseNodeSegment (l : Str) : Option (Str × Str) :=
  let seg := l.takeWhile (fun c => c ≠ ':')
  let rest := l.drop seg.length
  match rest with
  | ':' :: after =>
    match seg with
    | [] => none
    | c0 :: _ =>
      if isWsCh c0 then
        if (dropWs seg) = [] then
          match seg with
          | a :: b :: t => some ([(a :: b :: t).getLast (by simp)], after)
          | _ => none
        else some (dropWs seg, after)
      else none
  | _ => none

/-- The translation of `headerRegex`, returning capture groups 1 to 4:
timestamp, node-with-direction, step index, raw status tail. -/
def headerParse (l : Str) : Option (Str × Str × Str × Str) :=
  match parseTimestamp l with
  | none => none
  | some (ts, l) =>
  match ws1 l with
  | none => none
  | some l =>
  match digits1 l with
  | none => none
  | some (_, l) =>
  match ws1 l with
  | none => none
  | some l =>
  match dropLit (lit r"---") l with
  | none => none
  | some l =>
  match ws1 l with
  | none => none
  | some l =>
  match expectCh '[' l with
  | none => none
  | some l =>
  let l := l.dropWhile (fun c => c ≠ ']')
  match expectCh ']' l with
  | none => none
  | some l =>
  match parseNodeSegment l with
  | none => none
  | some (node, l) =>
  let l := dropWs l
  match digits1 l with
  | none => none
  | some (idx, l) =>
  let l := dropWs l
  match expectCh '-' l with
  | none => none
  | some l =>
    some (ts, node, idx, dropWs l)

/-! ### Status post-processing

Header handling (DumpParser.ts lines 51-56) trims the status tail, strips one
trailing parenthesised group with `replace(/\s*\([^)]*\)\s*$/g, '')` and strips
ANSI colours.  On a trimmed string the regex matches at the leftmost `(` from
which `[^)]*` reaches the final `)`, i.e. the first `(` after the second-to-last
`)`, together with the whitespace run before it; the global flag never yields a
second removal because scanning resumes at the end of the string. -/

/-- In the reversed pre-`)` segment, drop everything up to and including the
last `(` (which is the first `(` in source order). -/
def afterLastParenCh : Str → Str
  | [] => []
  | c :: r => if '(' ∈ r then afterLastParenCh r else if c = '(' then r else c :: r

/-- The `replace(/\s*\([^)]*\)\s*$/g, '')` step, applied to an already trimmed
status string. -/
def stripParenSuffix (l : Str) : Str :=
  match l.reverse with
  | ')' :: rest =>
    let seg := rest.takeWhile (fun c => c ≠ ')')
    let after := rest.drop seg.length
    if '(' ∈ seg then ((afterLastParenCh seg).dropWhile isWsCh ++ after).reverse
    else l
  | _ => l

/-- Case-insensitive literal prefix test. -/
def startsWithCI (p : Str) (l : Str) : Bool :=
  (l.take p.length).map lowerCh = p.map lowerCh && p.length ≤ l.length

/-- The `/^(Completed|Processed)\b/i` test of DumpParser.ts line 94. -/
def statusTriggersEarly (status : Str) : Bool :=
  (startsWithCI (lit r"completed") status &&
    (status.drop 9 = [] || !(isWordCh ((status.drop 9).headD ' ')))) ||
  (startsWithCI (lit r"processed") status &&
    (status.drop 9 = [] || !(isWordCh ((status.drop 9).headD ' '))))

/-! ### Raw-line keyword pretests -/

/-- The `/^\s*<kw>\s+/` pretests used by `tryExtractExchangeId` (raw line,
line 215), `tryExtractHeader` (raw line, line 234), `tryExtractStructural`
(preprocessed line, line 281) and `tryParseBodyMarker` (preprocessed line,
line 314). -/
def kwPretest (kw : Str) (l : Str) : Bool :=
  match dropLit kw (dropWs l) with
  | some rest =>
    match rest with
    | c :: _ => isWsCh c
    | [] => false
  | none => false

/-- Token test of lines 224 and 297: contains a hyphen, consists only of
characters in `[A-Za-z0-9-]`, and has length at least 16. -/
def isIdTok (t : Str) : Bool :=
  t.contains '-' && t.all isAlnumHyphenCh && decide (16 ≤ t.length)

/-- The downward index loop of lines 222-227: the last token satisfying
`isIdTok`, preferring tokens closer to the end. -/
def pickIdFromEnd : List Str → Option Str
  | [] => none
  | t :: r =>
    match pickIdFromEnd r with
    | some x => some x
    | none => if isIdTok t then some t else none

/-- `tryExtractExchangeId` of DumpParser.ts lines 212-229.  Note the pretest
runs on the raw line while tokenisation runs on the preprocessed line. -/
def tryExtractExchangeId (line : Str) : Option Str :=
  if kwPretest (lit r"Exchange") line then
    pickIdFromEnd (splitWs (trimWs (preprocess line)))
  else none

/-! ### Header key/value extraction -/

/-- The one-shot `replace(/^\s*Header\s+\([^)]*\)\s+/, '')` of line 240. -/
def dropHeaderMarker (l : Str) : Str :=
  match dropLit (lit r"Header") (dropWs l) with
  | none => l
  | some rest =>
    match ws1 rest with
    | none => l
    | some rest =>
      match rest with
      | '(' :: u =>
        let inner := u.dropWhile (fun c => c ≠ ')')
        match inner with
        | ')' :: v =>
          match ws1 v with
          | some v2 => v2
          | none => l
        | _ => l
      | _ => l

/-- Scanner for `^(\S.*?)\s{2,}(.*)$` after the first (non-whitespace)
character: find the earliest position followed by two whitespace characters;
the greedy `\s{2,}` then swallows the whole run. -/
def splitTwoSpacesGo : Str → Option (Str × Str)
  | c1 :: c2 :: r =>
    if isWsCh c1 && isWsCh c2 then some ([], (c1 :: c2 :: r).dropWhile isWsCh)
    else
      match splitTwoSpacesGo (c2 :: r) with
      | some (g1, g2) => some (c1 :: g1, g2)
      | none => none
  | _ => none

/-- The `afterHeader.match(/^(\S.*?)\s{2,}(.*)$/)` of line 241. -/
def splitTwoSpaces (l : Str) : Option (Str × Str) :=
  match l with
  | [] => none
  | c :: r =>
    if isWsCh c then none
    else
      match splitTwoSpacesGo r with
      | some (g1, g2) => some (c :: g1, g2)
      | none => none

/-- `tryExtractHeader` of DumpParser.ts lines 231-248 (raw-line pretest,
preprocessed extraction; key and value are trimmed). -/
def tryExtractHeader (line : Str) : Option (Str × Str) :=
  if kwPretest (lit r"Header") line then
    match splitTwoSpaces (dropHeaderMarker (preprocess line)) with
    | some (k, v) => some (trimWs k, trimWs v)
    | none => none
  else none

/-! ### Structural lines -/

/-- Matcher for `^\s*<kw>\s+(.*\S)\s*$` (the `Endpoint` and `Service` lines,
DumpParser.ts lines 253 and 260): the capture group is the rest of the line
after the maximal whitespace run following the keyword, with trailing
whitespace removed; it must be nonempty. -/
def kwValueMatch (kw : Str) (l : Str) : Option Str :=
  match dropLit kw (dropWs l) with
  | none => none
  | some rest =>
    match ws1 rest with
    | none => none
    | some body =>
      match rtrimWs body with
      | [] => none
      | v => some v

/-- Matcher for the continuation line `^\s*\(([^)]*)\)\s*$` (line 267). -/
def parenOnlyMatch (l : Str) : Option Str :=
  match dropWs l with
  | '(' :: u =>
    let inner := u.takeWhile (fun c => c ≠ ')')
    match u.drop inner.length with
    | ')' :: v => if dropWs v = [] then some inner else none
    | _ => none
  | _ => none

/-- Matcher for `^\s*Message\s+\(([^)]*)\)\s*$` (line 274). -/
def messageMatch (l : Str) : Option Str :=
  match dropLit (lit r"Message") (dropWs l) with
  | none => none
  | some rest =>
    match ws1 rest with
    | none => none
    | some body =>
      match body with
      | '(' :: u =>
        let inner := u.takeWhile (fun c => c ≠ ')')
        match u.drop inner.length with
        | ')' :: v => if dropWs v = [] then some inner else none
        | _ => none
      | _ => none

/-- Index (from the front) of the last token satisfying `isIdTok`, mirroring
the downward `idIndex` loop of lines 294-301. -/
def lastIdIndex : List Str → Option Nat
  | [] => none
  | t :: r =>
    match lastIdIndex r with
    | some i => some (i + 1)
    | none => if isIdTok t then some 0 else none

/-- The only structural marker that arms a continuation (`'Service'` in the
source's `lastStructuralKey` field). -/
inductive SKey
  | service
deriving DecidableEq

/-- A string-to-string map with unique keys, in insertion order, modelling the
JavaScript `headers` object (last write per key wins, in place). -/
def setHeader (hs : List (Str × Str)) (k v : Str) : List (Str × Str) :=
  if hs.any (fun p => p.1 = k) then hs.map (fun p => if p.1 = k then (k, v) else p)
  else hs ++ [(k, v)]

/-- Lookup in the headers map. -/
def hLookup (hs : List (Str × Str)) (k : Str) : Option Str :=
  (hs.find? (fun p => p.1 = k)).map (fun p => p.2)

/-- `tryExtractStructural` of DumpParser.ts lines 250-310, as a function of the
raw line, the current continuation marker and the current headers map;
`none` corresponds to `return false`. -/
def structuralApply (line : Str) (lastKey : Option SKey) (hs : List (Str × Str)) :
    Option (List (Str × Str) × Option SKey) :=
  let noAnsi := preprocess line
  match kwValueMatch (lit r"Endpoint") noAnsi with
  | some v => some (setHeader hs (lit r"Endpoint") (trimWs v), none)
  | none =>
  match kwValueMatch (lit r"Service") noAnsi with
  | some v => some (setHeader hs (lit r"Service") (trimWs v), some .service)
  | none =>
  match parenOnlyMatch noAnsi with
  | some inner =>
    if lastKey = some .service then
      let prev := (hLookup hs (lit r"Service")).getD []
      let value := if prev ≠ [] then prev ++ ' ' :: '(' :: inner ++ [')'] else '(' :: inner ++ [')']
      some (setHeader hs (lit r"Service") value, lastKey)
    else
      matchMessageOrExchange noAnsi hs
  | none => matchMessageOrExchange noAnsi hs
where
  /-- The `Message` and `Exchange` meta branches (lines 273-308). -/
  matchMessageOrExchange (noAnsi : Str) (hs : List (Str × Str)) :
      Option (List (Str × Str) × Option SKey) :=
    match messageMatch noAnsi with
    | some inner => some (setHeader hs (lit r"MessageType") (trimWs inner), none)
    | none =>
      if kwPretest (lit r"Exchange") noAnsi then
        let lineAfter :=
          match dropLit (lit r"Exchange") (dropWs noAnsi) with
          | some rest => dropWs rest
          | none => []
        let p :=
          match lineAfter with
          | '(' :: u =>
            let inner := u.takeWhile (fun c => c ≠ ')')
            match u.drop inner.length with
            | ')' :: v => (setHeader hs (lit r"ExchangeType") (trimWs inner), dropWs v)
            | _ => (hs, lineAfter)
          | _ => (hs, lineAfter)
        let parts := (splitWs (trimWs p.2)).filter (fun t => 0 < t.length)
        let hs2 :=
          match lastIdIndex parts with
          | some i =>
            if 0 < i then
              match parts.get? (i - 1) with
              | some pat => setHeader p.1 (lit r"ExchangePattern") pat
              | none => p.1
            else p.1
          | none => p.1
        some (hs2, none)
      else none

/-! ### Body marker -/

/-- Unanchored search for `Body\s*\(([^)]*)\)` (line 316): at each position try
the literal, then `\s*`, then a parenthesised group. -/
def findBodyType : Str → Option Str
  | [] => none
  | c :: r =>
    match tryBodyTypeAt (c :: r) with
    | some v => some v
    | none => findBodyType r
where
  tryBodyTypeAt (l : Str) : Option Str :=
    match dropLit (lit r"Body") l with
    | none => none
    | some t =>
      match dropWs t with
      | '(' :: u =>
        let inner := u.takeWhile (fun c => c ≠ ')')
        match u.drop inner.length with
        | ')' :: _ => some inner
        | _ => none
      | _ => none

/-- Unanchored search for `\(bytes:\s*(\d+)\)` (line 317). -/
def findBytes : Str → Option Nat
  | [] => none
  | c :: r =>
    match tryBytesAt (c :: r) with
    | some v => some v
    | none => findBytes r
where
  tryBytesAt (l : Str) : Option Nat :=
    match dropLit (lit r"(bytes:") l with
    | none => none
    | some t =>
      match digits1 (dropWs t) with
      | some (ds, ')' :: _) => some (digitsToNat ds)
      | _ => none

/-- Unanchored search for `\(size:\s*(\d+)\b` (line 318): after the maximal
digit run the next character, if any, must not be a word character. -/
def findSize : Str → Option Nat
  | [] => none
  | c :: r =>
    match trySizeAt (c :: r) with
    | some v => some v
    | none => findSize r
where
  trySizeAt (l : Str) : Option Nat :=
    match dropLit (lit r"(size:") l with
    | none => none
    | some t =>
      match digits1 (dropWs t) with
      | some (ds, []) => some (digitsToNat ds)
      | some (ds, c :: _) => if isWordCh c then none else some (digitsToNat ds)
      | none => none

/-- Result record of `tryParseBodyMarker` (lines 312-324).  The `size` field is
stored by the source but never read by the caller. -/
structure BodyMeta where
  type : Option Str
  bytes : Option Nat
  size : Option Nat
deriving DecidableEq

/-- `tryParseBodyMarker`: any line whose preprocessed form passes the
`^\s*Body\s+` pretest yields a (possibly empty) result record, which is truthy
in the caller. -/
def tryParseBodyMarker (line : Str) : Option BodyMeta :=
  let noAnsi := preprocess line
  if kwPretest (lit r"Body") noAnsi then
    some { type := findBodyType noAnsi, bytes := findBytes noAnsi, size := findSize noAnsi }
  else none

/-! ### Parser state

The mutable fields of the `DumpParser` class become a record.  The two
`setTimeout` timers are modelled by a counter of live (scheduled, not yet
cancelled, not yet fired) callbacks plus a flag saying whether the parser still
holds a handle to the most recently armed one: the source cancels only through
the stored handle, re-arming the completion timer overwrites the handle without
cancelling (line 97), and every callback clears the stored handle when it runs.
The `gen` field is ghost bookkeeping counting header lines, so that the event
under construction can be identified across emissions; `retired` is a ghost
heap remembering, per generation, the final contents of that generation's
headers object (JavaScript's `{...ev}` spread copies the reference to the
`headers` object, so every delivered snapshot aliases that live object). -/

/-- The `ExchangeEvent` interface of `types.ts`. -/
structure ExchangeEvent where
  timestamp : Str
  step : Str
  status : Str
  headers : List (Str × Str)
  body : Str
  exchangeId : Str
deriving DecidableEq

/-- Which code path delivered an event to the consumer. -/
inductive Trigger
  | completion
  | bodyIdle
  | exactSize
  | flush
deriving DecidableEq

/-- One invocation of the `onEvent` consumer callback. -/
structure EmitRec where
  gen : Nat
  timestamp : Str
  step : Str
  status : Str
  headers : List (Str × Str)
  body : Str
  exchangeId : Str
  trigger : Trigger
deriving DecidableEq

structure PState where
  gen : Nat
  currentEvent : Option ExchangeEvent
  currentEmitted : Bool
  isInBody : Bool
  lastStructuralKey : Option SKey
  expectedBodyBytes : Option Nat
  accumulatedBodyBytes : Nat
  completionLive : Nat
  completionHandle : Bool
  bodyIdleLive : Nat
  bodyIdleHandle : Bool
  outputs : List EmitRec
  retired : List (Nat × List (Str × Str))
deriving DecidableEq

/-- The freshly constructed parser. -/
def initState : PState :=
  { gen := 0, currentEvent := none, currentEmitted := false, isInBody := false,
    lastStructuralKey := none, expectedBodyBytes := none, accumulatedBodyBytes := 0,
    completionLive := 0, completionHandle := false, bodyIdleLive := 0,
    bodyIdleHandle := false, outputs := [], retired := [] }

/-- Append one consumer callback invocation recording the event under
construction of the current generation. -/
def emit (s : PState) (ev : ExchangeEvent) (tr : Trigger) : PState :=
  { s with outputs := s.outputs ++
      [{ gen := s.gen, timestamp := ev.timestamp, step := ev.step, status := ev.status,
         headers := ev.headers, body := ev.body, exchangeId := ev.exchangeId, trigger := tr }] }

/-- Cancel the handle-held completion timer, `if (completionEmitTimer) clearTimeout`. -/
def clearCompletion (s : PState) : PState :=
  { s with completionLive := s.completionLive - (if s.completionHandle then 1 else 0),
           completionHandle := false }

/-- Cancel the handle-held body-idle timer. -/
def clearBodyIdle (s : PState) : PState :=
  { s with bodyIdleLive := s.bodyIdleLive - (if s.bodyIdleHandle then 1 else 0),
           bodyIdleHandle := false }

/-- `flushCurrentEvent` of DumpParser.ts lines 182-198: detach the current
event, deliver it once when it has a nontrivial exchange id and was not
already emitted, and cancel both handle-held timers.  The detached headers
object is recorded in the ghost heap. -/
def flushCurrentEvent (s : PState) : PState :=
  match s.currentEvent with
  | none => s
  | some ev =>
    let s1 := { s with currentEvent := none, retired := (s.gen, ev.headers) :: s.retired }
    let s2 :=
      if ev.exchangeId ≠ [] ∧ (trimWs ev.exchangeId).length > 0 ∧ s.currentEmitted = false
      then emit s1 ev .flush else s1
    clearBodyIdle (clearCompletion s2)

/-- The header branch of `feed` (lines 42-79), after the optional flush. -/
def startHeader (s : PState) (ts node idx tail : Str) : PState :=
  let status := stripAnsi (stripParenSuffix (trimWs tail))
  let s1 := clearBodyIdle (clearCompletion s)
  { s1 with
    gen := s1.gen + 1,
    currentEvent := some
      { timestamp := ts,
        step := trimWs node ++ ' ' :: ':' :: ' ' :: idx ++ ' ' :: '-' :: ' ' :: status,
        status := status, headers := [], body := [], exchangeId := [] },
    currentEmitted := false, isInBody := false,
    expectedBodyBytes := none, accumulatedBodyBytes := 0 }

/-- Lines 84-105: record an extracted exchange id and possibly arm the
early-completion timer (a fresh `setTimeout`, armed without cancelling any
previous one). -/
def exIdStep (s : PState) (ev : ExchangeEvent) (line : Str) : PState × ExchangeEvent :=
  match tryExtractExchangeId line with
  | some exId =>
    let ev' := { ev with exchangeId := exId }
    let base := { s with currentEvent := some ev' }
    if !s.currentEmitted && !s.isInBody && s.expectedBodyBytes.isNone &&
        statusTriggersEarly ev'.status then
      ({ base with completionLive := base.completionLive + 1, completionHandle := true }, ev')
    else (base, ev')
  | none => (s, ev)

/-- Lines 120-137: the body-marker branch. -/
def markerStep (s : PState) (ev : ExchangeEvent) (meta : BodyMeta) : PState :=
  let hs :=
    match meta.type with
    | some t => setHeader ev.headers (lit r"BodyType") t
    | none => ev.headers
  let hs :=
    match meta.bytes with
    | some n => setHeader hs (lit r"BodyBytes") (natDigits n)
    | none => hs
  clearBodyIdle (clearCompletion
    { s with currentEvent := some { ev with headers := hs },
             expectedBodyBytes := meta.bytes, accumulatedBodyBytes := 0, isInBody := true })

/-- Lines 144-178: append a body line, re-arm the body-idle debounce timer and
apply the synchronous exact-size trigger. -/
def bodyAppendStep (s : PState) (ev : ExchangeEvent) (line : Str) : PState :=
  let grow := ev.body.length > 0
  let ev2 := { ev with body := if grow then ev.body ++ '\n' :: line else line }
  let acc := s.accumulatedBodyBytes + (if grow then 1 + byteLenStr line else byteLenStr line)
  let s2 := { s with currentEvent := some ev2, accumulatedBodyBytes := acc,
                     bodyIdleLive := s.bodyIdleLive - (if s.bodyIdleHandle then 1 else 0) + 1,
                     bodyIdleHandle := true }
  match s2.expectedBodyBytes with
  | some n =>
    if n ≤ acc ∧ ev2.exchangeId ≠ [] ∧ s2.currentEmitted = false then
      clearCompletion { (emit s2 ev2 .exactSize) with currentEmitted := true }
    else s2
  | none => s2

/-- Lines 82-179: the content branch of `feed`, for a non-header line while an
event is under construction. -/
def contentStep (s : PState) (ev : ExchangeEvent) (line : Str) : PState :=
  let p := exIdStep s ev line
  let s1 := p.1
  let ev1 := p.2
  match tryExtractHeader line with
  | some kv =>
    { s1 with currentEvent := some { ev1 with headers := setHeader ev1.headers kv.1 kv.2 } }
  | none =>
  match structuralApply line s1.lastStructuralKey ev1.headers with
  | some r => { s1 with currentEvent := some { ev1 with headers := r.1 }, lastStructuralKey := r.2 }
  | none =>
  match tryParseBodyMarker line with
  | some meta => markerStep s1 ev1 meta
  | none =>
  if s1.isInBody then bodyAppendStep s1 ev1 line else s1

/-- `feed` of DumpParser.ts lines 38-180. -/
def feed (s : PState) (line : Str) : PState :=
  match headerParse (preprocess line) with
  | some g =>
    startHeader (if s.currentEvent.isSome then flushCurrentEvent s else s) g.1 g.2.1 g.2.2.1 g.2.2.2
  | none =>
    match s.currentEvent with
    | none => s
    | some ev => contentStep s ev line

/-- One live early-completion callback runs (lines 97-103): deliver a snapshot
if an unemitted event with an exchange id is still current, mark it emitted,
and clear the stored handle. -/
def fireCompletion (s : PState) : PState :=
  if s.completionLive = 0 then s
  else
    let s1 :=
      match s.currentEvent with
      | some ev =>
        if s.currentEmitted = false ∧ ev.exchangeId ≠ [] then
          { (emit s ev .completion) with currentEmitted := true }
        else s
      | none => s
    { s1 with completionLive := s1.completionLive - 1, completionHandle := false }

/-- One live body-idle callback runs (lines 157-163). -/
def fireBodyIdle (s : PState) : PState :=
  if s.bodyIdleLive = 0 then s
  else
    let s1 :=
      match s.currentEvent with
      | some ev =>
        if s.currentEmitted = false ∧ ev.exchangeId ≠ [] then
          { (emit s ev .bodyIdle) with currentEmitted := true }
        else s
      | none => s
    { s1 with bodyIdleLive := s1.bodyIdleLive - 1, bodyIdleHandle := false }

/-- `done` of DumpParser.ts lines 203-205. -/
def doneCall (s : PState) : PState := flushCurrentEvent s

/-- Observable interactions with the parser: feeding a line, one of the armed
timer callbacks firing, or the end-of-stream signal. -/
inductive Act
  | feed (l : Str)
  | fireCompletion
  | fireBodyIdle
  | done
deriving DecidableEq

def applyAct (s : PState) : Act → PState
  | .feed l => feed s l
  | .fireCompletion => fireCompletion s
  | .fireBodyIdle => fireBodyIdle s
  | .done => doneCall s

def run (s : PState) (acts : List Act) : PState := acts.foldl applyAct s

/-! ### Derived observations used by the statements -/

/-- Number of consumer deliveries of the event of generation `g`. -/
def countEmits (g : Nat) (outs : List EmitRec) : Nat :=
  (outs.filter (fun r => r.gen = g)).length

/-- Final contents of generation `g`'s headers object: the live map while that
generation is still under construction, else the contents frozen at flush. -/
def liveHeadersOfGen (s : PState) (g : Nat) : List (Str × Str) :=
  match s.currentEvent with
  | some ev => if s.gen = g then ev.headers else retiredLookup s.retired g
  | none => retiredLookup s.retired g
where
  retiredLookup (l : List (Nat × List (Str × Str))) (g : Nat) : List (Str × Str) :=
    ((l.find? (fun p => p.1 = g)).map (fun p => p.2)).getD []

/-- The headers map of a delivered event as the consumer observes it at the end
of a run: JavaScript's `{...ev}` copies the reference to the `headers` object,
so the delivered record's `headers` field aliases the live object of its
generation and reflects that object's final contents. -/
def deliveredHeaders (s : PState) (r : EmitRec) : List (Str × Str) :=
  liveHeadersOfGen s r.gen

/-- The lines fed during a sequence of interactions. -/
def feedsOf (acts : List Act) : List Str :=
  acts.filterMap (fun a => match a with | .feed l => some l | _ => none)

/-- One step of the claim-level count of `C2`, walking the fed lines: a header
line closes the previous window (counted if it acquired an id) and opens a new
one; a line from which the exchange-id extractor succeeds marks the window. -/
def specWalkStep (w : Bool × Bool × Nat) (l : Str) : Bool × Bool × Nat :=
  if (headerParse (preprocess l)).isSome then
    (true, false, w.2.2 + (if w.1 && w.2.1 then 1 else 0))
  else if w.1 && (tryExtractExchangeId l).isSome then (w.1, true, w.2.2)
  else w

/-- Claim-level emitted-event count: the number of header lines whose event
acquires a non-empty exchange id before the next header line or end of stream. -/
def specCount (lines : List Str) : Nat :=
  let w := lines.foldl specWalkStep (false, false, 0)
  w.2.2 + (if w.1 && w.2.1 then 1 else 0)

/-- Claim-level description (C9) of the extracted correlation id: the last
whitespace-delimited token of the preprocessed line that contains a hyphen,
consists only of alphanumerics and hyphens, and has length at least 16. -/
def specLastIdToken (line : Str) : Option Str :=
  (splitWs (trimWs (preprocess line))).reverse.find?
    (fun t => t.contains '-' && t.all isAlnumHyphenCh && decide (16 ≤ t.length))

/-- Newline-joining of body lines, as in the claim language of C5. -/
def joinNL : List Str → Str
  | [] => []
  | [x] => x
  | x :: r => x ++ '\n' :: joinNL r

/-! ### Concrete dump lines used as test inputs in witnesses and
counterexamples -/

/-- A header line whose status is `Completed` (arms the early-emit path). -/
def exHeaderC : Str := lit r"2025-01-01 00:00:00.000 1 --- [t] n : 1 - Completed"

/-- A header line whose status is `Created`. -/
def exHeaderX : Str := lit r"2025-01-01 00:00:00.000 1 --- [t] n : 2 - Created"

/-- An `Exchange` line carrying a 17-character correlation id. -/
def exExchange : Str := lit r"Exchange (D) InOnly aaaa-aaaaaaaaaaaa"

/-- The correlation id of `exExchange`. -/
def exIdTok : Str := lit r"aaaa-aaaaaaaaaaaa"

/-- A `Body` marker with an exact byte count. -/
def exMarkerB3 : Str := lit r"Body (String) (bytes: 3)"

def exMarkerB2 : Str := lit r"Body (String) (bytes: 2)"

/-- A `Body` marker carrying only a size annotation. -/
def exMarkerS5 : Str := lit r"Body (String) (size: 5)"

/-- A `Header` key/value line. -/
def exHeaderKV : Str := lit r"Header (String) CamelFileName  x.csv"

/-- A `Service` structural line. -/
def exService : Str := lit r"Service foo"

/-- A bare parenthesised continuation line. -/
def exParenP : Str := lit r"(protocol=http)"

def exParenA : Str := lit r"(a)"

def exParenB : Str := lit r"(b)"

/-- An `Exchange` line behind a container/log prefix: the preprocessed line
begins with `Exchange` but the raw line does not. -/
def exExchangePrefixed : Str := lit r"svc | Exchange (D) InOnly aaaa-aaaaaaaaaaaa"

/-- A default event record for reading a field out of an optional event. -/
def evDefault : ExchangeEvent :=
  { timestamp := [], step := [], status := [], headers := [], body := [], exchangeId := [] }

/-- A default delivery record. -/
def recDefault : EmitRec :=
  { gen := 0, timestamp := [], step := [], status := [], headers := [], body := [],
    exchangeId := [], trigger := Trigger.flush }

/-- No further delivery of the current generation is possible: its event is
gone or already marked emitted. -/
def spent (s : PState) : Prop := s.currentEvent = none ∨ s.currentEmitted = true

def emitInv (s : PState) : Prop :=
  (∀ g, s.gen < g → countEmits g s.outputs = 0) ∧
  (∀ g, g < s.gen → countEmits g s.outputs ≤ 1) ∧
  countEmits s.gen s.outputs ≤ 1 ∧
  (¬ spent s → countEmits s.gen s.outputs = 0)

def c2Rel (s : PState) (w : Bool × Bool × Nat) : Prop :=
  (s.currentEvent.isSome = w.1) ∧
  (∀ ev, s.currentEvent = some ev →
    ((ev.exchangeId ≠ []) ↔ w.2.1 = true) ∧ trimWs ev.exchangeId = ev.exchangeId) ∧
  (s.outputs.length = w.2.2 +
    (if s.currentEvent.isSome = true ∧ s.currentEmitted = true then 1 else 0)) ∧
  (s.currentEvent.isSome = true → s.currentEmitted = true → w.2.1 = true)

/-- Invariant for claim C10: past the size-only body marker of generation `G`
(with `base` deliveries already made), every further delivery of generation `G`
comes from the body-idle timer or a flush. -/
def c10Inv (G base : Nat) (s : PState) : Prop :=
  base ≤ s.outputs.length ∧
  (∀ r ∈ s.outputs.drop base, r.gen = G → r.trigger = Trigger.bodyIdle ∨ r.trigger = Trigger.flush) ∧
  G ≤ s.gen ∧
  (s.gen = G → s.expectedBodyBytes = none ∧ s.isInBody = true ∧ s.completionLive = 0)

/-- Parser state after one header line (status `Created`). -/
def exRunH : PState := run initState [Act.feed exHeaderX]

/-- Its event under construction. -/
def exEvH : ExchangeEvent := exRunH.currentEvent.getD evDefault

/-- Parser state after a header line and an `Exchange` id line. -/
def exRunCE : PState := run initState [Act.feed exHeaderC, Act.feed exExchange]

/-- Its event under construction. -/
def exEvCE : ExchangeEvent := exRunCE.currentEvent.getD evDefault

/-- A line on which every content classifier fails: not a header line, no
exchange id, no header key/value, no structural interpretation of any kind and
no body marker.  Such a line can only be ignored or appended to the body. -/
def inertLine (l : Str) : Prop :=
  headerParse (preprocess l) = none ∧
  tryExtractExchangeId l = none ∧
  tryExtractHeader l = none ∧
  kwValueMatch (lit r"Endpoint") (preprocess l) = none ∧
  kwValueMatch (lit r"Service") (preprocess l) = none ∧
  parenOnlyMatch (preprocess l) = none ∧
  messageMatch (preprocess l) = none ∧
  kwPretest (lit r"Exchange") (preprocess l) = false ∧
  tryParseBodyMarker l = none

instance (l : Str) : Decidable (inertLine l) := by
  unfold inertLine
  infer_instance

/-- A string with no escape character (so no partial ANSI sequences). -/
def escFree (l : Str) : Prop := ∀ c ∈ l, c ≠ escCh

instance (l : Str) : Decidable (escFree l) := by
  unfold escFree
  infer_instance

/-- A complete ANSI colour sequence with parameter characters `ds`. -/
def ansiSeq (ds : Str) : Str := escCh :: '[' :: (ds ++ ['m'])

/-! ## Basic lemmas about the classifiers -/

theorem pickIdFromEnd_isIdTok : ∀ (ts : List Str) (t : Str),
    pickIdFromEnd ts = some t → isIdTok t = true := by
  intro ts
  induction ts with
  | nil => intro t h; simp [pickIdFromEnd] at h
  | cons x r ih =>
    intro t h
    simp only [pickIdFromEnd] at h
    rcases hr : pickIdFromEnd r with _ | y
    · rw [hr] at h
      by_cases hx : isIdTok x = true
      · simp [hx] at h; subst h; exact hx
      · simp [hx] at h
    · rw [hr] at h
      simp at h
      subst h
      exact ih y hr

theorem ws_not_alnumHyphen {c : Char} (h : isWsCh c = true) : isAlnumHyphenCh c = false := by
  unfold isWsCh at h
  simp only [Bool.or_eq_true, decide_eq_true_eq, or_assoc] at h
  rcases h with h | h | h | h | h | h <;> subst h <;> decide

theorem isIdTok_no_ws {t : Str} (h : isIdTok t = true) : ∀ c ∈ t, isWsCh c = false := by
  intro c hc
  unfold isIdTok at h
  simp only [Bool.and_eq_true] at h
  have hall := h.1.2
  rw [List.all_eq_true] at hall
  cases hw : isWsCh c with
  | false => rfl
  | true =>
    have h2 := hall c hc
    rw [ws_not_alnumHyphen hw] at h2
    exact absurd h2 (by simp)

theorem isIdTok_ne_nil {t : Str} (h : isIdTok t = true) : t ≠ [] := by
  unfold isIdTok at h
  simp only [Bool.and_eq_true, decide_eq_true_eq] at h
  intro hnil
  rw [hnil] at h
  simp at h

theorem dropWhile_eq_self_of_not {p : Char → Bool} : ∀ {l : Str},
    (∀ c ∈ l, p c = false) → l.dropWhile p = l := by
  intro l h
  cases l with
  | nil => rfl
  | cons c r => simp [List.dropWhile, h c (by simp)]

theorem trimWs_eq_self_of_no_ws {t : Str} (h : ∀ c ∈ t, isWsCh c = false) :
    trimWs t = t := by
  unfold trimWs rtrimWs dropWs
  rw [dropWhile_eq_self_of_not h]
  rw [dropWhile_eq_self_of_not (fun c hc => h c (List.mem_reverse.mp hc))]
  exact List.reverse_reverse t

theorem tryExtractExchangeId_token {l t : Str} (h : tryExtractExchangeId l = some t) :
    isIdTok t = true := by
  unfold tryExtractExchangeId at h
  by_cases hp : kwPretest (lit r"Exchange") l = true
  · rw [if_pos hp] at h
    exact pickIdFromEnd_isIdTok _ _ h
  · rw [if_neg hp] at h; exact absurd h (by simp)

theorem tryExtractExchangeId_trim {l t : Str} (h : tryExtractExchangeId l = some t) :
    trimWs t = t ∧ t ≠ [] := by
  have hid := tryExtractExchangeId_token h
  exact ⟨trimWs_eq_self_of_no_ws (isIdTok_no_ws hid), isIdTok_ne_nil hid⟩

/-! ## Characterization lemmas for the state machine -/

theorem flush_none {s : PState} (h : s.currentEvent = none) : flushCurrentEvent s = s := by
  unfold flushCurrentEvent
  rw [h]

theorem flush_char {s : PState} {ev : ExchangeEvent} (h : s.currentEvent = some ev) :
    (flushCurrentEvent s).currentEvent = none ∧
    (flushCurrentEvent s).gen = s.gen ∧
    (flushCurrentEvent s).currentEmitted = s.currentEmitted ∧
    (flushCurrentEvent s).lastStructuralKey = s.lastStructuralKey ∧
    (flushCurrentEvent s).completionHandle = false ∧
    (flushCurrentEvent s).bodyIdleHandle = false ∧
    (flushCurrentEvent s).completionLive =
      s.completionLive - (if s.completionHandle then 1 else 0) ∧
    (flushCurrentEvent s).bodyIdleLive =
      s.bodyIdleLive - (if s.bodyIdleHandle then 1 else 0) ∧
    (flushCurrentEvent s).expectedBodyBytes = s.expectedBodyBytes ∧
    (flushCurrentEvent s).isInBody = s.isInBody ∧
    (flushCurrentEvent s).outputs = s.outputs ++
      (if ev.exchangeId ≠ [] ∧ (trimWs ev.exchangeId).length > 0 ∧ s.currentEmitted = false
       then [{ gen := s.gen, timestamp := ev.timestamp, step := ev.step, status := ev.status,
               headers := ev.headers, body := ev.body, exchangeId := ev.exchangeId,
               trigger := Trigger.flush }]
       else []) := by
  unfold flushCurrentEvent
  rw [h]
  by_cases hc : ev.exchangeId ≠ [] ∧ (trimWs ev.exchangeId).length > 0 ∧ s.currentEmitted = false
  · rw [if_pos hc]
    simp [emit, clearCompletion, clearBodyIdle, hc]
  · rw [if_neg hc]
    simp [clearCompletion, clearBodyIdle, hc]

theorem startHeader_char (s : PState) (ts node idx tail : Str) :
    (startHeader s ts node idx tail).gen = s.gen + 1 ∧
    (startHeader s ts node idx tail).currentEvent = some
      { timestamp := ts,
        step := trimWs node ++ ' ' :: ':' :: ' ' :: idx ++ ' ' :: '-' :: ' ' ::
          stripAnsi (stripParenSuffix (trimWs tail)),
        status := stripAnsi (stripParenSuffix (trimWs tail)),
        headers := [], body := [], exchangeId := [] } ∧
    (startHeader s ts node idx tail).currentEmitted = false ∧
    (startHeader s ts node idx tail).isInBody = false ∧
    (startHeader s ts node idx tail).expectedBodyBytes = none ∧
    (startHeader s ts node idx tail).accumulatedBodyBytes = 0 ∧
    (startHeader s ts node idx tail).completionHandle = false ∧
    (startHeader s ts node idx tail).bodyIdleHandle = false ∧
    (startHeader s ts node idx tail).completionLive =
      s.completionLive - (if s.completionHandle then 1 else 0) ∧
    (startHeader s ts node idx tail).bodyIdleLive =
      s.bodyIdleLive - (if s.bodyIdleHandle then 1 else 0) ∧
    (startHeader s ts node idx tail).lastStructuralKey = s.lastStructuralKey ∧
    (startHeader s ts node idx tail).outputs = s.outputs := by
  unfold startHeader clearCompletion clearBodyIdle
  refine ⟨rfl, rfl, rfl, rfl, rfl, rfl, rfl, rfl, rfl, rfl, rfl, rfl⟩

theorem feed_header {s : PState} {l ts node idx tail : Str}
    (h : headerParse (preprocess l) = some (ts, node, idx, tail)) :
    feed s l = startHeader (if s.currentEvent.isSome then flushCurrentEvent s else s)
      ts node idx tail := by
  unfold feed
  rw [h]

theorem feed_nh_none {s : PState} {l : Str} (h : headerParse (preprocess l) = none)
    (hc : s.currentEvent = none) : feed s l = s := by
  unfold feed
  rw [h, hc]

theorem feed_nh_some {s : PState} {ev : ExchangeEvent} {l : Str}
    (h : headerParse (preprocess l) = none) (hc : s.currentEvent = some ev) :
    feed s l = contentStep s ev l := by
  unfold feed
  rw [h, hc]

theorem exIdStep_ev (s : PState) (ev : ExchangeEvent) (l : Str) :
    (exIdStep s ev l).2 = { ev with exchangeId := (tryExtractExchangeId l).getD ev.exchangeId } := by
  unfold exIdStep
  rcases h : tryExtractExchangeId l with _ | t
  · simp
  · dsimp
    split <;> rfl

theorem exIdStep_st {s : PState} {ev : ExchangeEvent} (l : Str)
    (hc : s.currentEvent = some ev) :
    (exIdStep s ev l).1.gen = s.gen ∧
    (exIdStep s ev l).1.outputs = s.outputs ∧
    (exIdStep s ev l).1.currentEmitted = s.currentEmitted ∧
    (exIdStep s ev l).1.isInBody = s.isInBody ∧
    (exIdStep s ev l).1.expectedBodyBytes = s.expectedBodyBytes ∧
    (exIdStep s ev l).1.accumulatedBodyBytes = s.accumulatedBodyBytes ∧
    (exIdStep s ev l).1.lastStructuralKey = s.lastStructuralKey ∧
    (exIdStep s ev l).1.bodyIdleLive = s.bodyIdleLive ∧
    (exIdStep s ev l).1.bodyIdleHandle = s.bodyIdleHandle ∧
    (exIdStep s ev l).1.retired = s.retired ∧
    (exIdStep s ev l).1.currentEvent = some (exIdStep s ev l).2 := by
  unfold exIdStep
  rcases h : tryExtractExchangeId l with _ | t
  · simp [hc]
  · dsimp
    split <;> simp

theorem exIdStep_inBody_timers {s : PState} {ev : ExchangeEvent} (l : Str)
    (hb : s.isInBody = true) :
    (exIdStep s ev l).1.completionLive = s.completionLive ∧
    (exIdStep s ev l).1.completionHandle = s.completionHandle := by
  unfold exIdStep
  rcases h : tryExtractExchangeId l with _ | t
  · simp
  · dsimp
    split
    · rename_i hcond
      rw [hb] at hcond
      simp at hcond
    · simp

theorem bodyAppendStep_char (s : PState) (ev : ExchangeEvent) (l : Str) :
    ∃ ev',
    (bodyAppendStep s ev l).currentEvent = some ev' ∧
    (bodyAppendStep s ev l).gen = s.gen ∧
    (bodyAppendStep s ev l).retired = s.retired ∧
    ev'.exchangeId = ev.exchangeId ∧
    ev'.status = ev.status ∧
    (bodyAppendStep s ev l).isInBody = s.isInBody ∧
    (bodyAppendStep s ev l).expectedBodyBytes = s.expectedBodyBytes ∧
    (bodyAppendStep s ev l).completionLive ≤ s.completionLive ∧
    (((bodyAppendStep s ev l).outputs = s.outputs ∧
      (bodyAppendStep s ev l).currentEmitted = s.currentEmitted) ∨
     (s.currentEmitted = false ∧ (bodyAppendStep s ev l).currentEmitted = true ∧
      ev'.exchangeId ≠ [] ∧ (∃ n, s.expectedBodyBytes = some n) ∧
      ∃ r, (bodyAppendStep s ev l).outputs = s.outputs ++ [r] ∧ r.gen = s.gen ∧
        r.trigger = Trigger.exactSize ∧ r.exchangeId = ev'.exchangeId)) := by
  unfold bodyAppendStep
  dsimp only
  rcases hE : s.expectedBodyBytes with _ | n
  · dsimp only
    exact ⟨_, rfl, rfl, rfl, rfl, rfl, rfl, rfl, Nat.le_refl _, Or.inl ⟨rfl, rfl⟩⟩
  · dsimp only
    by_cases hg : ev.body.length > 0
    · simp only [if_pos hg]
      split
      · rename_i hcond
        refine ⟨_, rfl, rfl, rfl, rfl, rfl, rfl, rfl, Nat.sub_le _ _, Or.inr ?_⟩
        exact ⟨hcond.2.2, rfl, hcond.2.1, ⟨n, rfl⟩, _, rfl, rfl, rfl, rfl⟩
      · exact ⟨_, rfl, rfl, rfl, rfl, rfl, rfl, rfl, Nat.le_refl _, Or.inl ⟨rfl, rfl⟩⟩
    · simp only [if_neg hg]
      split
      · rename_i hcond
        refine ⟨_, rfl, rfl, rfl, rfl, rfl, rfl, rfl, Nat.sub_le _ _, Or.inr ?_⟩
        exact ⟨hcond.2.2, rfl, hcond.2.1, ⟨n, rfl⟩, _, rfl, rfl, rfl, rfl⟩
      · exact ⟨_, rfl, rfl, rfl, rfl, rfl, rfl, rfl, Nat.le_refl _, Or.inl ⟨rfl, rfl⟩⟩

theorem contentStep_char {s : PState} {ev : ExchangeEvent} (l : Str)
    (hcur : s.currentEvent = some ev) :
    ∃ ev',
    (contentStep s ev l).currentEvent = some ev' ∧
    (contentStep s ev l).gen = s.gen ∧
    (contentStep s ev l).retired = s.retired ∧
    ev'.exchangeId = (tryExtractExchangeId l).getD ev.exchangeId ∧
    ev'.status = ev.status ∧
    (s.isInBody = true → (contentStep s ev l).isInBody = true) ∧
    ((contentStep s ev l).expectedBodyBytes = s.expectedBodyBytes ∨
      ∃ meta, tryParseBodyMarker l = some meta ∧
        (contentStep s ev l).expectedBodyBytes = meta.bytes) ∧
    (s.isInBody = true → (contentStep s ev l).completionLive ≤ s.completionLive) ∧
    (((contentStep s ev l).outputs = s.outputs ∧
      (contentStep s ev l).currentEmitted = s.currentEmitted) ∨
     (s.currentEmitted = false ∧ (contentStep s ev l).currentEmitted = true ∧
      ev'.exchangeId ≠ [] ∧ (∃ n, s.expectedBodyBytes = some n) ∧
      ∃ r, (contentStep s ev l).outputs = s.outputs ++ [r] ∧ r.gen = s.gen ∧
        r.trigger = Trigger.exactSize ∧ r.exchangeId = ev'.exchangeId)) := by
  obtain ⟨hgen, houts, hemit, hbody, hexp, hacc, hkey, _, _, hret, hcev⟩ := exIdStep_st l hcur
  have hev2 := exIdStep_ev s ev l
  unfold contentStep
  dsimp only
  rcases hH : tryExtractHeader l with _ | kv
  · rcases hS : structuralApply l (exIdStep s ev l).1.lastStructuralKey (exIdStep s ev l).2.headers
        with _ | sr
    · rcases hM : tryParseBodyMarker l with _ | meta
      · by_cases hB : (exIdStep s ev l).1.isInBody
        · rw [if_pos hB]
          obtain ⟨ev', h1, h2, h3, h4, h5, h6, h7, h8, h9⟩ :=
            bodyAppendStep_char (exIdStep s ev l).1 (exIdStep s ev l).2 l
          refine ⟨ev', h1, h2.trans hgen, h3.trans hret, ?_, ?_, ?_, ?_, ?_, ?_⟩
          · rw [h4, hev2]
          · rw [h5, hev2]
          · intro _; rw [h6]; exact hB
          · left; rw [h7, hexp]
          · intro hbtrue
            have := @exIdStep_inBody_timers s ev l hbtrue
            exact le_trans h8 (le_of_eq this.1)
          · rcases h9 with ⟨ho, he⟩ | ⟨he0, he1, hne, hexpn, r, hr⟩
            · left; exact ⟨ho.trans houts, he.trans hemit⟩
            · right
              refine ⟨hemit ▸ he0, he1, hne, ?_, r, hr.1.trans (by rw [houts]), hgen ▸ hr.2.1,
                hr.2.2.1, hr.2.2.2⟩
              rcases hexpn with ⟨n, hn⟩
              exact ⟨n, hexp ▸ hn⟩
        · rw [if_neg hB]
          refine ⟨(exIdStep s ev l).2, hcev, hgen, hret, by rw [hev2], by rw [hev2], ?_, ?_, ?_, ?_⟩
          · intro hbtrue; rw [hbody] at hB; exact absurd hbtrue hB
          · left; exact hexp
          · intro hbtrue
            exact le_of_eq (@exIdStep_inBody_timers s ev l hbtrue).1
          · left; exact ⟨houts, hemit⟩
      · refine ⟨_, rfl, hgen, hret, by rw [hev2], by rw [hev2], ?_, ?_, ?_, ?_⟩
        · intro _; simp [markerStep, clearCompletion, clearBodyIdle]
        · right
          refine ⟨meta, rfl, ?_⟩
          simp [markerStep, clearCompletion, clearBodyIdle]
        · intro hbtrue
          have h1 := (@exIdStep_inBody_timers s ev l hbtrue).1
          have h2 : (markerStep (exIdStep s ev l).1 (exIdStep s ev l).2 meta).completionLive =
              (exIdStep s ev l).1.completionLive -
                (if (exIdStep s ev l).1.completionHandle then 1 else 0) := by
            simp [markerStep, clearCompletion, clearBodyIdle]
          rw [h2, h1]
          exact Nat.sub_le _ _
        · left
          constructor
          · simp [markerStep, clearCompletion, clearBodyIdle, emit]
            exact houts
          · simp [markerStep, clearCompletion, clearBodyIdle]
            exact hemit
    · refine ⟨_, rfl, hgen, hret, by rw [hev2], by rw [hev2], ?_, Or.inl hexp, ?_, Or.inl ⟨houts, hemit⟩⟩
      · intro hbtrue; rw [hbody]; exact hbtrue
      · intro hbtrue
        exact le_of_eq (@exIdStep_inBody_timers s ev l hbtrue).1
  · refine ⟨_, rfl, hgen, hret, by rw [hev2], by rw [hev2], ?_, Or.inl hexp, ?_, Or.inl ⟨houts, hemit⟩⟩
    · intro hbtrue; rw [hbody]; exact hbtrue
    · intro hbtrue
      exact le_of_eq (@exIdStep_inBody_timers s ev l hbtrue).1

theorem fireCompletion_char (s : PState) :
    (fireCompletion s).gen = s.gen ∧
    (fireCompletion s).currentEvent = s.currentEvent ∧
    (fireCompletion s).retired = s.retired ∧
    (fireCompletion s).isInBody = s.isInBody ∧
    (fireCompletion s).expectedBodyBytes = s.expectedBodyBytes ∧
    (fireCompletion s).completionLive ≤ s.completionLive ∧
    (s.completionLive = 0 → fireCompletion s = s) ∧
    (((fireCompletion s).outputs = s.outputs ∧
      (fireCompletion s).currentEmitted = s.currentEmitted) ∨
     (∃ ev, s.currentEvent = some ev ∧ s.currentEmitted = false ∧ ev.exchangeId ≠ [] ∧
      (fireCompletion s).currentEmitted = true ∧
      ∃ r, (fireCompletion s).outputs = s.outputs ++ [r] ∧ r.gen = s.gen ∧
        r.trigger = Trigger.completion ∧ r.exchangeId = ev.exchangeId)) := by
  unfold fireCompletion
  by_cases hz : s.completionLive = 0
  · rw [if_pos hz]
    exact ⟨rfl, rfl, rfl, rfl, rfl, Nat.le_refl _, fun _ => rfl, Or.inl ⟨rfl, rfl⟩⟩
  · rw [if_neg hz]
    rcases hc : s.currentEvent with _ | ev
    · exact ⟨rfl, by simp [hc], rfl, rfl, rfl, Nat.sub_le _ _, fun h0 => absurd h0 hz,
        Or.inl ⟨rfl, rfl⟩⟩
    · dsimp only
      split
      · rename_i hcond
        refine ⟨rfl, ?_, rfl, rfl, rfl, Nat.sub_le _ _, fun h0 => absurd h0 hz, Or.inr ?_⟩
        · simp [emit, hc]
        · exact ⟨ev, rfl, hcond.1, hcond.2, rfl, _, rfl, rfl, rfl, rfl⟩
      · exact ⟨rfl, by simp [hc], rfl, rfl, rfl, Nat.sub_le _ _, fun h0 => absurd h0 hz,
          Or.inl ⟨rfl, rfl⟩⟩

theorem fireBodyIdle_char (s : PState) :
    (fireBodyIdle s).gen = s.gen ∧
    (fireBodyIdle s).currentEvent = s.currentEvent ∧
    (fireBodyIdle s).retired = s.retired ∧
    (fireBodyIdle s).isInBody = s.isInBody ∧
    (fireBodyIdle s).expectedBodyBytes = s.expectedBodyBytes ∧
    (fireBodyIdle s).completionLive = s.completionLive ∧
    (((fireBodyIdle s).outputs = s.outputs ∧
      (fireBodyIdle s).currentEmitted = s.currentEmitted) ∨
     (∃ ev, s.currentEvent = some ev ∧ s.currentEmitted = false ∧ ev.exchangeId ≠ [] ∧
      (fireBodyIdle s).currentEmitted = true ∧
      ∃ r, (fireBodyIdle s).outputs = s.outputs ++ [r] ∧ r.gen = s.gen ∧
        r.trigger = Trigger.bodyIdle ∧ r.exchangeId = ev.exchangeId)) := by
  unfold fireBodyIdle
  by_cases hz : s.bodyIdleLive = 0
  · rw [if_pos hz]
    exact ⟨rfl, rfl, rfl, rfl, rfl, rfl, Or.inl ⟨rfl, rfl⟩⟩
  · rw [if_neg hz]
    rcases hc : s.currentEvent with _ | ev
    · exact ⟨rfl, by simp [hc], rfl, rfl, rfl, rfl, Or.inl ⟨rfl, rfl⟩⟩
    · dsimp only
      split
      · rename_i hcond
        refine ⟨rfl, ?_, rfl, rfl, rfl, rfl, Or.inr ?_⟩
        · simp [emit, hc]
        · exact ⟨ev, rfl, hcond.1, hcond.2, rfl, _, rfl, rfl, rfl, rfl⟩
      · exact ⟨rfl, by simp [hc], rfl, rfl, rfl, rfl, Or.inl ⟨rfl, rfl⟩⟩

/-! ## At-most-once delivery (claim C1)

An event is identified by the generation counter (the number of header lines
seen when it was created).  The invariant below says: generations that do not
exist yet have no deliveries, every finished generation has at most one, and
the current generation has none while its event is still present and unemitted. -/

theorem countEmits_append_one (g : Nat) (outs : List EmitRec) (r : EmitRec) :
    countEmits g (outs ++ [r]) = countEmits g outs + (if r.gen = g then 1 else 0) := by
  unfold countEmits
  rw [List.filter_append]
  simp only [List.length_append]
  by_cases h : r.gen = g
  · simp [h]
  · simp [h]

/-- Shape of one interaction: at most one record is appended, tagged with the
pre-step generation; the generation grows by zero or one; an append requires an
unspent state; and on an unchanged generation the step preserves spentness and
any append leaves the state spent. -/
theorem applyAct_summary (s : PState) (a : Act) :
    ∃ out, (applyAct s a).outputs = s.outputs ++ out ∧
    (∀ r ∈ out, r.gen = s.gen) ∧
    (out = [] ∨ ∃ r, out = [r]) ∧
    ((applyAct s a).gen = s.gen ∨ (applyAct s a).gen = s.gen + 1) ∧
    (out ≠ [] → ¬ spent s) ∧
    ((applyAct s a).gen = s.gen →
      ((out ≠ [] → spent (applyAct s a)) ∧ (spent s → spent (applyAct s a)))) := by
  cases a with
  | feed l =>
    simp only [applyAct]
    rcases hh : headerParse (preprocess l) with _ | g
    · rcases hc : s.currentEvent with _ | ev
      · rw [feed_nh_none hh hc]
        exact ⟨[], by simp, by simp, by simp, by simp, by simp, fun _ => ⟨by simp, fun h => h⟩⟩
      · rw [feed_nh_some hh hc]
        obtain ⟨ev', h1, h2, _, _, _, _, _, _, h9⟩ := contentStep_char l hc
        rcases h9 with ⟨ho, he⟩ | ⟨he0, he1, _, _, r, hr1, hr2, _, _⟩
        · refine ⟨[], by simp [ho], by simp, by simp, Or.inl h2, by simp, fun _ => ⟨by simp, ?_⟩⟩
          intro hsp
          unfold spent at hsp ⊢
          rcases hsp with hsp | hsp
          · rw [hsp] at hc; exact absurd hc (by simp)
          · right; rw [he, hsp]
        · refine ⟨[r], by simp [hr1], by simp [hr2], Or.inr ⟨r, rfl⟩, Or.inl h2, ?_, ?_⟩
          · intro _
            unfold spent
            push_neg
            exact ⟨by simp [hc], by simp [he0]⟩
          · intro _
            exact ⟨fun _ => Or.inr he1, fun _ => Or.inr he1⟩
    · obtain ⟨ts, node, idx, tail⟩ := g
      rw [feed_header hh]
      rcases hc : s.currentEvent with _ | ev
      · simp only [hc, Option.isSome_none, Bool.false_eq_true, if_false]
        obtain ⟨hg, _, _, _, _, _, _, _, _, _, _, ho⟩ := startHeader_char s ts node idx tail
        refine ⟨[], by simp [ho], by simp, by simp, Or.inr hg, by simp, fun hgen => ?_⟩
        rw [hg] at hgen
        exact absurd hgen (by simp)
      · simp only [hc, Option.isSome_some, if_true]
        obtain ⟨hg, _, _, _, _, _, _, _, _, _, _, ho⟩ :=
          startHeader_char (flushCurrentEvent s) ts node idx tail
        obtain ⟨_, hfg, hfe, _, _, _, _, _, _, _, hfo⟩ := flush_char hc
        by_cases hcond : ev.exchangeId ≠ [] ∧ (trimWs ev.exchangeId).length > 0 ∧
            s.currentEmitted = false
        · rw [if_pos hcond] at hfo
          refine ⟨_, by rw [ho, hfo], by simp, Or.inr ⟨_, rfl⟩, Or.inr (by rw [hg, hfg]), ?_,
            fun hgen => ?_⟩
          · intro _
            unfold spent
            push_neg
            exact ⟨by simp [hc], by simp [hcond.2.2]⟩
          · rw [hg, hfg] at hgen
            exact absurd hgen (by simp)
        · rw [if_neg hcond] at hfo
          refine ⟨[], by simp [ho, hfo], by simp, by simp, Or.inr (by rw [hg, hfg]),
            by simp, fun hgen => ?_⟩
          rw [hg, hfg] at hgen
          exact absurd hgen (by simp)
  | fireCompletion =>
    simp only [applyAct]
    obtain ⟨hg, hce, _, _, _, _, _, h8⟩ := fireCompletion_char s
    rcases h8 with ⟨ho, he⟩ | ⟨ev, hev, he0, _, he1, r, hr1, hr2, _, _⟩
    · refine ⟨[], by simp [ho], by simp, by simp, Or.inl hg, by simp, fun _ => ⟨by simp, ?_⟩⟩
      intro hsp
      unfold spent at hsp ⊢
      rcases hsp with hsp | hsp
      · left; rw [hce, hsp]
      · right; rw [he, hsp]
    · refine ⟨[r], by simp [hr1], by simp [hr2], Or.inr ⟨r, rfl⟩, Or.inl hg, ?_, ?_⟩
      · intro _
        unfold spent
        push_neg
        exact ⟨by simp [hev], by simp [he0]⟩
      · intro _
        exact ⟨fun _ => Or.inr he1, fun _ => Or.inr he1⟩
  | fireBodyIdle =>
    simp only [applyAct]
    obtain ⟨hg, hce, _, _, _, _, h8⟩ := fireBodyIdle_char s
    rcases h8 with ⟨ho, he⟩ | ⟨ev, hev, he0, _, he1, r, hr1, hr2, _, _⟩
    · refine ⟨[], by simp [ho], by simp, by simp, Or.inl hg, by simp, fun _ => ⟨by simp, ?_⟩⟩
      intro hsp
      unfold spent at hsp ⊢
      rcases hsp with hsp | hsp
      · left; rw [hce, hsp]
      · right; rw [he, hsp]
    · refine ⟨[r], by simp [hr1], by simp [hr2], Or.inr ⟨r, rfl⟩, Or.inl hg, ?_, ?_⟩
      · intro _
        unfold spent
        push_neg
        exact ⟨by simp [hev], by simp [he0]⟩
      · intro _
        exact ⟨fun _ => Or.inr he1, fun _ => Or.inr he1⟩
  | done =>
    simp only [applyAct, doneCall]
    rcases hc : s.currentEvent with _ | ev
    · rw [flush_none hc]
      exact ⟨[], by simp, by simp, by simp, by simp, by simp, fun _ => ⟨by simp, fun h => h⟩⟩
    · obtain ⟨hfc, hfg, hfe, _, _, _, _, _, _, _, hfo⟩ := flush_char hc
      by_cases hcond : ev.exchangeId ≠ [] ∧ (trimWs ev.exchangeId).length > 0 ∧
          s.currentEmitted = false
      · rw [if_pos hcond] at hfo
        refine ⟨_, hfo, by simp, Or.inr ⟨_, rfl⟩, Or.inl hfg, ?_, fun _ => ⟨?_, ?_⟩⟩
        · intro _
          unfold spent
          push_neg
          exact ⟨by simp [hc], by simp [hcond.2.2]⟩
        · intro _; exact Or.inl hfc
        · intro _; exact Or.inl hfc
      · rw [if_neg hcond] at hfo
        refine ⟨[], by simp [hfo], by simp, by simp, Or.inl hfg, by simp,
          fun _ => ⟨by simp, fun _ => Or.inl hfc⟩⟩

theorem emitInv_step {s : PState} (h : emitInv s) (a : Act) : emitInv (applyAct s a) := by
  obtain ⟨out, ho, htag, hlen, hgen, hne, hsame⟩ := applyAct_summary s a
  obtain ⟨h1, h2, h3, h4⟩ := h
  rcases hlen with rfl | ⟨r, rfl⟩
  · have hco : ∀ g, countEmits g (applyAct s a).outputs = countEmits g s.outputs := by
      intro g
      rw [ho]
      simp
    rcases hgen with hg | hg
    · refine ⟨?_, ?_, ?_, ?_⟩
      · intro g hgt
        rw [hg] at hgt
        rw [hco]
        exact h1 g hgt
      · intro g hlt
        rw [hg] at hlt
        rw [hco]
        exact h2 g hlt
      · rw [hco, hg]
        exact h3
      · intro hns
        rw [hco, hg]
        exact h4 (fun hsp => hns ((hsame hg).2 hsp))
    · refine ⟨?_, ?_, ?_, ?_⟩
      · intro g hgt
        rw [hg] at hgt
        rw [hco]
        exact h1 g (by omega)
      · intro g hlt
        rw [hg] at hlt
        rw [hco]
        rcases Nat.lt_succ_iff_lt_or_eq.mp hlt with hlt2 | heq
        · exact h2 g hlt2
        · subst heq
          exact h3
      · rw [hco, hg]
        have := h1 (s.gen + 1) (by omega)
        omega
      · intro _
        rw [hco, hg]
        exact h1 (s.gen + 1) (by omega)
  · have hrg : r.gen = s.gen := htag r (by simp)
    have hns : ¬ spent s := hne (by simp)
    have hzero : countEmits s.gen s.outputs = 0 := h4 hns
    have hco : ∀ g, countEmits g (applyAct s a).outputs =
        countEmits g s.outputs + (if r.gen = g then 1 else 0) := by
      intro g
      rw [ho]
      exact countEmits_append_one g s.outputs r
    rcases hgen with hg | hg
    · refine ⟨?_, ?_, ?_, ?_⟩
      · intro g hgt
        rw [hg] at hgt
        rw [hco, h1 g hgt, if_neg (by omega)]
      · intro g hlt
        rw [hg] at hlt
        rw [hco, if_neg (by omega)]
        have := h2 g hlt
        omega
      · rw [hco, hg, hzero, if_pos hrg]
      · intro hns2
        exact absurd ((hsame hg).1 (by simp)) hns2
    · refine ⟨?_, ?_, ?_, ?_⟩
      · intro g hgt
        rw [hg] at hgt
        rw [hco, h1 g (by omega), if_neg (by omega)]
      · intro g hlt
        rw [hg] at hlt
        rw [hco]
        rcases Nat.lt_succ_iff_lt_or_eq.mp hlt with hlt2 | heq
        · rw [if_neg (by omega)]
          have := h2 g hlt2
          omega
        · subst heq
          rw [hzero, if_pos hrg]
      · rw [hco, hg, if_neg (by omega), h1 (s.gen + 1) (by omega)]
        omega
      · intro _
        rw [hco, hg, if_neg (by omega), h1 (s.gen + 1) (by omega)]

theorem emitInv_run {s : PState} (h : emitInv s) (acts : List Act) : emitInv (run s acts) := by
  induction acts generalizing s with
  | nil => exact h
  | cons a r ih =>
    show emitInv (run (applyAct s a) r)
    exact ih (emitInv_step h a)

theorem emitInv_init : emitInv initState := by
  refine ⟨?_, ?_, ?_, ?_⟩
  · intro g hgt
    simp [initState, countEmits]
  · intro g hlt
    simp [initState] at hlt
  · simp [initState, countEmits]
  · intro h
    simp [initState, countEmits]

/-! ## Event counting (claim C2)

The machine state is related to the walk state of `specWalkStep`:
`w.1` says an event is under construction, `w.2.1` says it has acquired an
exchange id, and `w.2.2` counts closed windows that acquired one.  The number
of deliveries so far is `w.2.2` plus one if the current event was already
delivered early. -/

theorem c2Rel_init : c2Rel initState (false, false, 0) := by
  refine ⟨rfl, ?_, ?_, ?_⟩
  · intro ev hev
    exact absurd hev (by simp [initState])
  · simp [initState]
  · intro h
    exact absurd h (by simp [initState])

theorem c2Rel_fire_emit {s s' : PState} {w : Bool × Bool × Nat} (h : c2Rel s w)
    (hce : s'.currentEvent = s.currentEvent)
    (hdisj : (s'.outputs = s.outputs ∧ s'.currentEmitted = s.currentEmitted) ∨
      (∃ ev, s.currentEvent = some ev ∧ s.currentEmitted = false ∧ ev.exchangeId ≠ [] ∧
       s'.currentEmitted = true ∧
       ∃ r, s'.outputs = s.outputs ++ [r])) :
    c2Rel s' w := by
  obtain ⟨h1, h2, h3, h4⟩ := h
  rcases hdisj with ⟨ho, he⟩ | ⟨ev, hev, he0, hne, he1, r, hr⟩
  · exact ⟨hce ▸ h1, fun e hx => h2 e (hce ▸ hx), by rw [ho, hce, he]; exact h3,
      fun hs hm => h4 (hce ▸ hs) (he ▸ hm)⟩
  · have hw21 : w.2.1 = true := ((h2 ev hev).1).mp hne
    refine ⟨hce ▸ h1, fun e hx => h2 e (hce ▸ hx), ?_, fun _ _ => hw21⟩
    rw [hr, List.length_append]
    rw [h3, if_neg (by simp [he0]), if_pos ⟨by simp [hce, hev], he1⟩]
    simp

theorem c2Rel_step {s : PState} {w : Bool × Bool × Nat} {a : Act} (hnd : a ≠ Act.done)
    (h : c2Rel s w) :
    c2Rel (applyAct s a)
      (match a with | .feed l => specWalkStep w l | _ => w) := by
  obtain ⟨h1, h2, h3, h4⟩ := h
  cases a with
  | done => exact absurd rfl hnd
  | fireCompletion =>
    obtain ⟨_, hce, _, _, _, _, _, h8⟩ := fireCompletion_char s
    refine c2Rel_fire_emit ⟨h1, h2, h3, h4⟩ hce ?_
    rcases h8 with hl | ⟨ev, hev, he0, hne, he1, r, hr, _⟩
    · exact Or.inl hl
    · exact Or.inr ⟨ev, hev, he0, hne, he1, r, hr⟩
  | fireBodyIdle =>
    obtain ⟨_, hce, _, _, _, _, h8⟩ := fireBodyIdle_char s
    refine c2Rel_fire_emit ⟨h1, h2, h3, h4⟩ hce ?_
    rcases h8 with hl | ⟨ev, hev, he0, hne, he1, r, hr, _⟩
    · exact Or.inl hl
    · exact Or.inr ⟨ev, hev, he0, hne, he1, r, hr⟩
  | feed l =>
    simp only [applyAct]
    rcases hh : headerParse (preprocess l) with _ | g
    · have hwalk : specWalkStep w l =
          (if w.1 && (tryExtractExchangeId l).isSome then (w.1, true, w.2.2) else w) := by
        unfold specWalkStep
        rw [hh]
        simp
      rcases hc : s.currentEvent with _ | ev
      · rw [feed_nh_none hh hc, hwalk]
        have hw1 : w.1 = false := by rw [← h1, hc]; rfl
        rw [hw1]
        simp only [Bool.false_and, if_false]
        exact ⟨h1, h2, h3, h4⟩
      · rw [feed_nh_some hh hc, hwalk]
        have hw1 : w.1 = true := by rw [← h1, hc]; rfl
        obtain ⟨ev', k1, k2, _, kx, _, _, _, _, k9⟩ := contentStep_char l hc
        have hsome' : (contentStep s ev l).currentEvent.isSome = true := by
          rw [k1]; rfl
        rcases hX : tryExtractExchangeId l with _ | t
        · rw [hX] at kx
          simp only [Option.getD_none] at kx
          simp only [Option.isSome_none, Bool.and_false, Bool.false_eq_true, if_false]
          refine ⟨by rw [hsome', hw1], ?_, ?_, ?_⟩
          · intro e hx
            rw [k1] at hx
            cases hx
            rw [kx]
            exact h2 ev hc
          · rcases k9 with ⟨ko, ke⟩ | ⟨ke0, ke1, kne, _, r, kr1, _, _, _⟩
            · rw [ko, ke, h3, hc]
              simp [hsome']
            · rw [kr1, List.length_append, h3, hc]
              rw [if_neg (by simp [ke0]), if_pos ⟨hsome', ke1⟩]
              simp
          · intro _ hm
            rcases k9 with ⟨_, ke⟩ | ⟨ke0, ke1, kne, _, _⟩
            · exact h4 (by rw [hc]; rfl) (ke ▸ hm)
            · rw [kx] at kne
              exact ((h2 ev hc).1).mp kne
        · rw [hX] at kx
          simp only [Option.getD_some] at kx
          have hcnd : (w.1 && (some t).isSome) = true := by rw [hw1]; rfl
          rw [if_pos hcnd]
          have htok := tryExtractExchangeId_trim hX
          refine ⟨by rw [hsome', hw1], ?_, ?_, ?_⟩
          · intro e hx
            rw [k1] at hx
            cases hx
            rw [kx]
            exact ⟨by simp [htok.2], htok.1⟩
          · rcases k9 with ⟨ko, ke⟩ | ⟨ke0, ke1, kne, _, r, kr1, _, _, _⟩
            · rw [ko, ke, h3, hc]
              simp [hsome']
            · rw [kr1, List.length_append, h3, hc]
              rw [if_neg (by simp [ke0]), if_pos ⟨hsome', ke1⟩]
              simp
          · intro _ _
            rfl
    · obtain ⟨ts, node, idx, tail⟩ := g
      have hwalk : specWalkStep w l = (true, false, w.2.2 + (if w.1 && w.2.1 then 1 else 0)) := by
        unfold specWalkStep
        rw [hh]
        simp
      rw [feed_header hh, hwalk]
      rcases hc : s.currentEvent with _ | ev
      · simp only [hc, Option.isSome_none, Bool.false_eq_true, if_false]
        obtain ⟨_, g2, g3, _, _, _, _, _, _, _, _, g12⟩ := startHeader_char s ts node idx tail
        have hw1 : w.1 = false := by rw [← h1, hc]; rfl
        refine ⟨by rw [g2]; rfl, ?_, ?_, ?_⟩
        · intro e hx
          rw [g2] at hx
          cases hx
          exact ⟨by simp, rfl⟩
        · rw [g12, g2, g3, h3, hc, hw1]
          simp
        · intro _ hm
          rw [g3] at hm
          exact absurd hm (by simp)
      · simp only [hc, Option.isSome_some, if_true]
        obtain ⟨_, g2, g3, _, _, _, _, _, _, _, _, g12⟩ :=
          startHeader_char (flushCurrentEvent s) ts node idx tail
        obtain ⟨_, _, _, _, _, _, _, _, _, _, f11⟩ := flush_char hc
        have hw1 : w.1 = true := by rw [← h1, hc]; rfl
        have hid := h2 ev hc
        refine ⟨by rw [g2]; rfl, ?_, ?_, ?_⟩
        · intro e hx
          rw [g2] at hx
          cases hx
          exact ⟨by simp, rfl⟩
        · rw [g12, g2, g3, f11, List.length_append, h3, hc, hw1]
          simp only [Option.isSome_some, true_and, Bool.true_and]
          by_cases hemit : s.currentEmitted = true
          · have hw21 : w.2.1 = true := h4 (by rw [hc]; rfl) hemit
            rw [if_pos hemit, if_neg (by simp [hemit]), hw21]
            simp
          · have hne0 : s.currentEmitted = false := by
              cases hm : s.currentEmitted
              · rfl
              · exact absurd hm hemit
            rw [if_neg hemit]
            by_cases hw21 : w.2.1 = true
            · have hids : ev.exchangeId ≠ [] := (hid.1).mpr hw21
              have htr : (trimWs ev.exchangeId).length > 0 := by
                rw [hid.2]
                cases hx : ev.exchangeId
                · exact absurd hx hids
                · simp [hx]
              rw [if_pos ⟨hids, htr, hne0⟩, hw21]
              simp
            · have hids : ¬ (ev.exchangeId ≠ []) := fun hx => hw21 ((hid.1).mp hx)
              have hw21f : w.2.1 = false := by
                cases hm : w.2.1
                · rfl
                · exact absurd hm hw21
              rw [if_neg (by intro hcc; exact hids hcc.1), hw21f]
              simp
        · intro _ hm
          rw [g3] at hm
          exact absurd hm (by simp)

theorem c2Rel_done {s : PState} {w : Bool × Bool × Nat} (h : c2Rel s w) :
    (doneCall s).outputs.length = w.2.2 + (if w.1 && w.2.1 then 1 else 0) := by
  obtain ⟨h1, h2, h3, h4⟩ := h
  rcases hc : s.currentEvent with _ | ev
  · have : doneCall s = s := flush_none hc
    rw [this, h3, hc]
    have hw1 : w.1 = false := by rw [← h1, hc]; rfl
    rw [hw1]
    simp
  · obtain ⟨_, _, _, _, _, _, _, _, _, _, f11⟩ := flush_char hc
    have hw1 : w.1 = true := by rw [← h1, hc]; rfl
    have hid := h2 ev hc
    show (flushCurrentEvent s).outputs.length = _
    rw [f11, List.length_append, h3, hc, hw1]
    simp only [Option.isSome_some, true_and, Bool.true_and]
    by_cases hemit : s.currentEmitted = true
    · have hw21 : w.2.1 = true := h4 (by rw [hc]; rfl) hemit
      rw [if_pos hemit, if_neg (by simp [hemit]), hw21]
      simp
    · have hne0 : s.currentEmitted = false := by
        cases hm : s.currentEmitted
        · rfl
        · exact absurd hm hemit
      rw [if_neg hemit]
      by_cases hw21 : w.2.1 = true
      · have hids : ev.exchangeId ≠ [] := (hid.1).mpr hw21
        have htr : (trimWs ev.exchangeId).length > 0 := by
          rw [hid.2]
          cases hx : ev.exchangeId
          · exact absurd hx hids
          · simp [hx]
        rw [if_pos ⟨hids, htr, hne0⟩, hw21]
        simp
      · have hids : ¬ (ev.exchangeId ≠ []) := fun hx => hw21 ((hid.1).mp hx)
        have hw21f : w.2.1 = false := by
          cases hm : w.2.1
          · rfl
          · exact absurd hm hw21
        rw [if_neg (by intro hcc; exact hids hcc.1), hw21f]
        simp

theorem c2_run {acts : List Act} (hnd : ∀ a ∈ acts, a ≠ Act.done) :
    ∀ (s : PState) (w : Bool × Bool × Nat), c2Rel s w →
    (run s (acts ++ [Act.done])).outputs.length =
      (let w2 := (feedsOf acts).foldl specWalkStep w
       w2.2.2 + (if w2.1 && w2.2.1 then 1 else 0)) := by
  induction acts with
  | nil =>
    intro s w hrel
    show (doneCall s).outputs.length = _
    exact c2Rel_done hrel
  | cons a r ih =>
    intro s w hrel
    have hnd' : ∀ x ∈ r, x ≠ Act.done := fun x hx => hnd x (by simp [hx])
    have hna : a ≠ Act.done := hnd a (by simp)
    have hstep := c2Rel_step hna hrel
    show (run (applyAct s a) (r ++ [Act.done])).outputs.length = _
    cases a with
    | feed l =>
      have := ih hnd' (applyAct s (.feed l)) (specWalkStep w l) hstep
      rw [this]
      rfl
    | fireCompletion => exact ih hnd' _ w hstep
    | fireBodyIdle => exact ih hnd' _ w hstep
    | done => exact absurd rfl hna

/-! ## Claim theorems C1 and C2 -/

/-- C1: for every sequence of feed calls and timer firings (and flushes and
`done` calls), each constructed event — identified by the generation counter of
its header line — is delivered to the consumer at most once, no matter which of
the emission triggers (early-completion timer, body-idle timer, exact-size
trigger) or flush paths fire. -/
theorem c1_at_most_once_per_event (acts : List Act) (g : Nat) :
    countEmits g (run initState acts).outputs ≤ 1 := by
  obtain ⟨h1, h2, h3, _⟩ := emitInv_run emitInv_init acts
  rcases Nat.lt_trichotomy (run initState acts).gen g with h | h | h
  · rw [h1 g h]
    omega
  · rw [← h]
    exact h3
  · exact h2 g h

/-- C2: for every finite sequence of feeds and timer firings followed by
`done()`, the total number of emitted events equals the number of header lines
whose event acquires a non-empty exchange id (a line from which the exchange-id
extractor succeeds) before the next header line arrives or the stream ends. -/
theorem c2_emitted_count (acts : List Act) (hnd : ∀ a ∈ acts, a ≠ Act.done) :
    ((run initState (acts ++ [Act.done])).outputs).length = specCount (feedsOf acts) := by
  have h := c2_run hnd initState (false, false, 0) c2Rel_init
  rw [h]
  rfl

/-- Witness for C2 at a concrete interaction sequence: two events, of which
only the first acquires an exchange id, with a timer firing in between. -/
theorem c2_emitted_count_witness :
    (∀ a ∈ [Act.feed exHeaderC, Act.feed exExchange, Act.fireCompletion, Act.feed exHeaderX],
      a ≠ Act.done) ∧
    ((run initState ([Act.feed exHeaderC, Act.feed exExchange, Act.fireCompletion,
        Act.feed exHeaderX] ++ [Act.done])).outputs).length =
      specCount (feedsOf [Act.feed exHeaderC, Act.feed exExchange, Act.fireCompletion,
        Act.feed exHeaderX]) :=
  ⟨by decide, c2_emitted_count _ (by decide)⟩

/-! ## Helper lemmas for the per-claim theorems -/

theorem find?_map_setHeader (t : List (Str × Str)) (k v k' : Str) (h : k' ≠ k) :
    List.find? (fun p => p.1 = k') (t.map (fun p => if p.1 = k then (k, v) else p)) =
    List.find? (fun p => p.1 = k') t := by
  induction t with
  | nil => rfl
  | cons p r ih =>
    rw [List.map_cons]
    by_cases hp : p.1 = k
    · rw [if_pos hp]
      rw [List.find?_cons_of_neg _ (by simp; exact fun hx => h hx.symm),
          List.find?_cons_of_neg _ (by simp [hp]; exact fun hx => h hx.symm)]
      exact ih
    · rw [if_neg hp]
      by_cases hq : p.1 = k'
      · rw [List.find?_cons_of_pos _ (by simpa using hq),
            List.find?_cons_of_pos _ (by simpa using hq)]
      · rw [List.find?_cons_of_neg _ (by simpa using hq),
            List.find?_cons_of_neg _ (by simpa using hq)]
        exact ih

theorem hLookup_setHeader_same (hs : List (Str × Str)) (k v : Str) :
    hLookup (setHeader hs k v) k = some v := by
  unfold setHeader
  by_cases ha : hs.any (fun p => p.1 = k)
  · rw [if_pos ha]
    induction hs with
    | nil => simp at ha
    | cons p t ih =>
      unfold hLookup
      by_cases hp : p.1 = k
      · rw [List.map_cons, if_pos hp]
        rw [List.find?_cons_of_pos _ (by simp)]
        rfl
      · rw [List.map_cons, if_neg hp]
        rw [List.find?_cons_of_neg _ (by simpa using hp)]
        have ht : t.any (fun q => q.1 = k) = true := by
          simp only [List.any_cons, Bool.or_eq_true] at ha
          rcases ha with h | h
          · exact absurd (by simpa using h) hp
          · exact h
        exact ih ht
  · rw [if_neg ha]
    unfold hLookup
    rw [List.find?_append]
    have hnone : List.find? (fun p => p.1 = k) hs = none := by
      rw [List.find?_eq_none]
      intro p hp
      simp only [decide_eq_true_eq]
      intro hk
      exact ha (List.any_eq_true.mpr ⟨p, hp, by simp [hk]⟩)
    rw [hnone]
    simp

theorem hLookup_setHeader_other (hs : List (Str × Str)) (k v k' : Str) (h : k' ≠ k) :
    hLookup (setHeader hs k v) k' = hLookup hs k' := by
  unfold setHeader
  by_cases ha : hs.any (fun p => p.1 = k)
  · rw [if_pos ha]
    unfold hLookup
    rw [find?_map_setHeader hs k v k' h]
  · rw [if_neg ha]
    unfold hLookup
    rw [List.find?_append]
    cases hf : List.find? (fun p => p.1 = k') hs
    · simp only [Option.none_or]
      rw [List.find?_cons_of_neg _ (by simp; exact fun hx => h hx.symm)]
      simp
    · simp

theorem pickIdFromEnd_eq_find : ∀ ts : List Str,
    pickIdFromEnd ts = ts.reverse.find? isIdTok := by
  intro ts
  induction ts with
  | nil => rfl
  | cons t r ih =>
    unfold pickIdFromEnd
    rw [ih, List.reverse_cons, List.find?_append]
    cases hf : List.find? isIdTok r.reverse
    · cases hT : isIdTok t <;> simp [hT]
    · simp

theorem specLastIdToken_eq (l : Str) :
    specLastIdToken l = pickIdFromEnd (splitWs (trimWs (preprocess l))) := by
  unfold specLastIdToken
  rw [pickIdFromEnd_eq_find]
  rfl

/-- A non-header content line with no recognized exchange id, header key/value
or structural interpretation that is a body marker: `feed` runs `markerStep`. -/
theorem feed_marker {s : PState} {ev : ExchangeEvent} {l : Str} {meta : BodyMeta}
    (hh : headerParse (preprocess l) = none) (hcur : s.currentEvent = some ev)
    (hx : tryExtractExchangeId l = none) (hk : tryExtractHeader l = none)
    (hst : structuralApply l s.lastStructuralKey ev.headers = none)
    (hm : tryParseBodyMarker l = some meta) :
    feed s l = markerStep s ev meta := by
  rw [feed_nh_some hh hcur]
  unfold contentStep exIdStep
  rw [hx]
  dsimp only
  rw [hk, hst, hm]

/-- A structural line (no exchange id, no header key/value): `feed` stores the
structural update. -/
theorem feed_structural {s : PState} {ev : ExchangeEvent} {l : Str}
    {res : List (Str × Str) × Option SKey}
    (hh : headerParse (preprocess l) = none) (hcur : s.currentEvent = some ev)
    (hx : tryExtractExchangeId l = none) (hk : tryExtractHeader l = none)
    (hst : structuralApply l s.lastStructuralKey ev.headers = some res) :
    feed s l = { s with currentEvent := some { ev with headers := res.1 },
                        lastStructuralKey := res.2 } := by
  rw [feed_nh_some hh hcur]
  unfold contentStep exIdStep
  rw [hx]
  dsimp only
  rw [hk, hst]

/-- A fully inert line while in body mode: `feed` appends it to the body. -/
theorem feed_inert_body {s : PState} {ev : ExchangeEvent} {l : Str}
    (hh : headerParse (preprocess l) = none) (hcur : s.currentEvent = some ev)
    (hx : tryExtractExchangeId l = none) (hk : tryExtractHeader l = none)
    (hst : structuralApply l s.lastStructuralKey ev.headers = none)
    (hm : tryParseBodyMarker l = none) (hb : s.isInBody = true) :
    feed s l = bodyAppendStep s ev l := by
  rw [feed_nh_some hh hcur]
  unfold contentStep exIdStep
  rw [hx]
  dsimp only
  rw [hk, hst, hm, if_pos hb]

/-- Content lines processed outside body mode that are not body markers leave
everything but the current event's `exchangeId` and `headers` and the parser's
continuation marker and completion timer unchanged. -/
theorem contentStep_noBody_char {s : PState} {ev : ExchangeEvent} (l : Str)
    (hcur : s.currentEvent = some ev) (hm : tryParseBodyMarker l = none)
    (hb : s.isInBody = false) :
    ∃ ev',
    (contentStep s ev l).currentEvent = some ev' ∧
    ev'.exchangeId = (tryExtractExchangeId l).getD ev.exchangeId ∧
    ev'.status = ev.status ∧
    ev'.body = ev.body ∧
    ev'.timestamp = ev.timestamp ∧
    ev'.step = ev.step ∧
    (contentStep s ev l).gen = s.gen ∧
    (contentStep s ev l).outputs = s.outputs ∧
    (contentStep s ev l).currentEmitted = s.currentEmitted ∧
    (contentStep s ev l).isInBody = false ∧
    (contentStep s ev l).expectedBodyBytes = s.expectedBodyBytes ∧
    (contentStep s ev l).accumulatedBodyBytes = s.accumulatedBodyBytes ∧
    (contentStep s ev l).bodyIdleLive = s.bodyIdleLive ∧
    (contentStep s ev l).bodyIdleHandle = s.bodyIdleHandle := by
  obtain ⟨hgen, houts, hemit, hbody, hexp, hacc, hkey, hbl, hbh, hret, hcev⟩ := exIdStep_st l hcur
  have hev2 := exIdStep_ev s ev l
  unfold contentStep
  dsimp only
  rcases hH : tryExtractHeader l with _ | kv
  · rcases hS : structuralApply l (exIdStep s ev l).1.lastStructuralKey (exIdStep s ev l).2.headers
        with _ | sr
    · rw [hm]
      rw [hbody, hb]
      simp only [Bool.false_eq_true, if_false]
      exact ⟨(exIdStep s ev l).2, hcev, by rw [hev2], by rw [hev2], by rw [hev2], by rw [hev2],
        by rw [hev2], hgen, houts, hemit, hbody.trans hb, hexp, hacc, hbl, hbh⟩
    · exact ⟨_, rfl, by rw [hev2], by rw [hev2], by rw [hev2], by rw [hev2], by rw [hev2],
        hgen, houts, hemit, hbody.trans hb, hexp, hacc, hbl, hbh⟩
  · exact ⟨_, rfl, by rw [hev2], by rw [hev2], by rw [hev2], by rw [hev2], by rw [hev2],
      hgen, houts, hemit, hbody.trans hb, hexp, hacc, hbl, hbh⟩

/-- Field-level description of `markerStep`. -/
theorem markerStep_char (s : PState) (ev : ExchangeEvent) (meta : BodyMeta) :
    (markerStep s ev meta).currentEvent = some { ev with headers :=
      (match meta.bytes with
       | some n => setHeader (match meta.type with
           | some t => setHeader ev.headers (lit r"BodyType") t
           | none => ev.headers) (lit r"BodyBytes") (natDigits n)
       | none => (match meta.type with
           | some t => setHeader ev.headers (lit r"BodyType") t
           | none => ev.headers)) } ∧
    (markerStep s ev meta).gen = s.gen ∧
    (markerStep s ev meta).outputs = s.outputs ∧
    (markerStep s ev meta).currentEmitted = s.currentEmitted ∧
    (markerStep s ev meta).isInBody = true ∧
    (markerStep s ev meta).expectedBodyBytes = meta.bytes ∧
    (markerStep s ev meta).accumulatedBodyBytes = 0 ∧
    (markerStep s ev meta).lastStructuralKey = s.lastStructuralKey ∧
    (markerStep s ev meta).completionLive =
      s.completionLive - (if s.completionHandle then 1 else 0) ∧
    (markerStep s ev meta).completionHandle = false ∧
    (markerStep s ev meta).bodyIdleLive =
      s.bodyIdleLive - (if s.bodyIdleHandle then 1 else 0) ∧
    (markerStep s ev meta).bodyIdleHandle = false := by
  unfold markerStep clearCompletion clearBodyIdle
  rcases meta.bytes with _ | n <;> rcases meta.type with _ | t <;>
    exact ⟨rfl, rfl, rfl, rfl, rfl, rfl, rfl, rfl, rfl, rfl, rfl, rfl⟩

/-! ## Claims C3, C6, C7, C8, C9 -/

/-- C3 (code bug): at the input sequence header / `Exchange` id line /
early-completion timer fires / `Header` key-value line, exactly one event is
delivered, its headers map contained no `CamelFileName` entry at delivery time,
yet the consumer's record — whose `headers` field aliases the live headers
object, because the source emits the shallow copy `{...this.currentEvent}` —
ends the run containing `CamelFileName`, so the delivered event is not an
immutable snapshot. -/
theorem c3_snapshot_mutated_after_emission :
    ((run initState [Act.feed exHeaderC, Act.feed exExchange, Act.fireCompletion,
        Act.feed exHeaderKV]).outputs).length = 1 ∧
    hLookup (((run initState [Act.feed exHeaderC, Act.feed exExchange, Act.fireCompletion,
        Act.feed exHeaderKV]).outputs.headD recDefault).headers) (lit r"CamelFileName")
      = none ∧
    hLookup (deliveredHeaders
        (run initState [Act.feed exHeaderC, Act.feed exExchange, Act.fireCompletion,
          Act.feed exHeaderKV])
        ((run initState [Act.feed exHeaderC, Act.feed exExchange, Act.fireCompletion,
          Act.feed exHeaderKV]).outputs.headD recDefault)) (lit r"CamelFileName")
      = some (lit r"x.csv") := by
  decide

/-- C6: at flush time — `done()` or a new header line — the event under
construction is emitted exactly once iff its exchange id is non-empty and it
was not already emitted, and is silently discarded otherwise; in particular two
consecutive header lines emit nothing for the first header. -/
theorem c6_flush_rule :
    (∀ (s : PState) (ev : ExchangeEvent), s.currentEvent = some ev →
      trimWs ev.exchangeId = ev.exchangeId →
      (doneCall s).outputs = s.outputs ++
        (if ev.exchangeId ≠ [] ∧ s.currentEmitted = false then
          [{ gen := s.gen, timestamp := ev.timestamp, step := ev.step, status := ev.status,
             headers := ev.headers, body := ev.body, exchangeId := ev.exchangeId,
             trigger := Trigger.flush }] else [])) ∧
    (∀ (s : PState) (ev : ExchangeEvent) (l : Str) (g : Str × Str × Str × Str),
      s.currentEvent = some ev → headerParse (preprocess l) = some g →
      trimWs ev.exchangeId = ev.exchangeId →
      (feed s l).outputs = s.outputs ++
        (if ev.exchangeId ≠ [] ∧ s.currentEmitted = false then
          [{ gen := s.gen, timestamp := ev.timestamp, step := ev.step, status := ev.status,
             headers := ev.headers, body := ev.body, exchangeId := ev.exchangeId,
             trigger := Trigger.flush }] else [])) ∧
    (∀ (s : PState) (l1 l2 : Str) (g1 g2 : Str × Str × Str × Str),
      s.currentEvent = none →
      headerParse (preprocess l1) = some g1 → headerParse (preprocess l2) = some g2 →
      (run s [Act.feed l1, Act.feed l2]).outputs = s.outputs) := by
  have key : ∀ (s : PState) (ev : ExchangeEvent), s.currentEvent = some ev →
      trimWs ev.exchangeId = ev.exchangeId →
      (flushCurrentEvent s).outputs = s.outputs ++
        (if ev.exchangeId ≠ [] ∧ s.currentEmitted = false then
          [{ gen := s.gen, timestamp := ev.timestamp, step := ev.step, status := ev.status,
             headers := ev.headers, body := ev.body, exchangeId := ev.exchangeId,
             trigger := Trigger.flush }] else []) := by
    intro s ev hcur htrim
    obtain ⟨_, _, _, _, _, _, _, _, _, _, f11⟩ := flush_char hcur
    rw [f11]
    by_cases hcond : ev.exchangeId ≠ [] ∧ s.currentEmitted = false
    · rw [if_pos ⟨hcond.1, (by rw [htrim]; exact List.length_pos.mpr hcond.1), hcond.2⟩,
          if_pos hcond]
    · have hcond2 : ¬ (ev.exchangeId ≠ [] ∧ (trimWs ev.exchangeId).length > 0 ∧
          s.currentEmitted = false) := fun hfull => hcond ⟨hfull.1, hfull.2.2⟩
      rw [if_neg hcond2, if_neg hcond]
  refine ⟨fun s ev h1 h2 => key s ev h1 h2, ?_, ?_⟩
  · intro s ev l g hcur hh htrim
    obtain ⟨ts, node, idx, tail⟩ := g
    rw [feed_header hh]
    obtain ⟨_, _, _, _, _, _, _, _, _, _, _, g12⟩ :=
      startHeader_char (if s.currentEvent.isSome then flushCurrentEvent s else s) ts node idx tail
    rw [g12]
    rw [if_pos (by rw [hcur]; rfl)]
    exact key s ev hcur htrim
  · intro s l1 l2 g1 g2 hcur hh1 hh2
    obtain ⟨t1, n1, i1, a1⟩ := g1
    obtain ⟨t2, n2, i2, a2⟩ := g2
    show (feed (feed s l1) l2).outputs = s.outputs
    rw [feed_header hh1, if_neg (by rw [hcur]; simp)]
    obtain ⟨_, s2, s3, _, _, _, _, _, _, _, _, s12⟩ := startHeader_char s t1 n1 i1 a1
    rw [feed_header hh2, if_pos (by rw [s2]; rfl)]
    obtain ⟨_, _, _, _, _, _, _, _, _, _, _, g12⟩ :=
      startHeader_char (flushCurrentEvent (startHeader s t1 n1 i1 a1)) t2 n2 i2 a2
    rw [g12]
    obtain ⟨_, _, _, _, _, _, _, _, _, _, f11⟩ := flush_char s2
    rw [f11, s12]
    rw [if_neg (by simp)]
    simp

/-- C6 witness: `done()` after a header and an `Exchange` id line delivers the
event exactly once through the flush path. -/
theorem c6_flush_rule_witness :
    exRunCE.currentEvent = some exEvCE ∧
    trimWs exEvCE.exchangeId = exEvCE.exchangeId ∧
    (doneCall exRunCE).outputs = exRunCE.outputs ++
      (if exEvCE.exchangeId ≠ [] ∧ exRunCE.currentEmitted = false then
        [{ gen := exRunCE.gen, timestamp := exEvCE.timestamp, step := exEvCE.step,
           status := exEvCE.status, headers := exEvCE.headers, body := exEvCE.body,
           exchangeId := exEvCE.exchangeId, trigger := Trigger.flush }] else []) :=
  ⟨by decide, by decide, c6_flush_rule.1 exRunCE exEvCE (by decide) (by decide)⟩

/-- C7 counterexample: after header (`Completed` status), two `Exchange` id
lines (each arming a fresh completion timer), a `Service` line and a new header
line, one early-completion timer is still live (its handle was overwritten, so
neither flush nor the header cancelled it) and the `Service` continuation
marker survives the header, making the very next bare parenthesised line a
`Service` header of the new event — refuting that all pending emission timers
are cancelled and that no transient marker of the previous event can influence
classification for the new event. -/
theorem c7_counterexample :
    (run initState [Act.feed exHeaderC, Act.feed exExchange, Act.feed exExchange,
      Act.feed exService, Act.feed exHeaderX]).lastStructuralKey = some SKey.service ∧
    (run initState [Act.feed exHeaderC, Act.feed exExchange, Act.feed exExchange,
      Act.feed exService, Act.feed exHeaderX]).completionLive = 1 ∧
    ((feed (run initState [Act.feed exHeaderC, Act.feed exExchange, Act.feed exExchange,
      Act.feed exService, Act.feed exHeaderX]) exParenP).currentEvent.getD evDefault).headers
      = [(lit r"Service", lit r"(protocol=http)")] := by
  decide

/-- C7 (amended): recognizing a header line clears the emission flag, body
mode, both body byte counters and the handle-held timers of both kinds (each
live count drops by one exactly when its handle was held); the `Service`
continuation marker is not reset, and timers whose handle was lost stay
live. -/
theorem c7_amended (s : PState) (l ts node idx tail : Str)
    (h : headerParse (preprocess l) = some (ts, node, idx, tail)) :
    (feed s l).currentEmitted = false ∧
    (feed s l).isInBody = false ∧
    (feed s l).expectedBodyBytes = none ∧
    (feed s l).accumulatedBodyBytes = 0 ∧
    (feed s l).completionHandle = false ∧
    (feed s l).bodyIdleHandle = false ∧
    (feed s l).lastStructuralKey = s.lastStructuralKey ∧
    (feed s l).completionLive = s.completionLive - (if s.completionHandle then 1 else 0) ∧
    (feed s l).bodyIdleLive = s.bodyIdleLive - (if s.bodyIdleHandle then 1 else 0) := by
  rw [feed_header h]
  rcases hc : s.currentEvent with _ | ev
  · rw [if_neg (by simp)]
    obtain ⟨_, _, g3, g4, g5, g6, g7, g8, g9, g10, g11, _⟩ := startHeader_char s ts node idx tail
    exact ⟨g3, g4, g5, g6, g7, g8, g11, g9, g10⟩
  · rw [if_pos (by rfl)]
    obtain ⟨_, _, g3, g4, g5, g6, g7, g8, g9, g10, g11, _⟩ :=
      startHeader_char (flushCurrentEvent s) ts node idx tail
    obtain ⟨_, _, _, f4, f5, f6, f7, f8, _, _, _⟩ := flush_char hc
    refine ⟨g3, g4, g5, g6, g7, g8, g11.trans f4, ?_, ?_⟩
    · rw [g9, f5, f7]
      simp
    · rw [g10, f6, f8]
      simp

/-- C7 witness at a concrete state holding an armed completion timer. -/
theorem c7_amended_witness :
    headerParse (preprocess exHeaderX) = some (lit r"2025-01-01 00:00:00.000", lit r"n ",
      lit r"2", lit r"Created") ∧
    (feed exRunCE exHeaderX).currentEmitted = false ∧
    (feed exRunCE exHeaderX).completionHandle = false ∧
    (feed exRunCE exHeaderX).lastStructuralKey = exRunCE.lastStructuralKey ∧
    (feed exRunCE exHeaderX).completionLive =
      exRunCE.completionLive - (if exRunCE.completionHandle then 1 else 0) :=
  ⟨by decide,
   (c7_amended exRunCE exHeaderX (lit r"2025-01-01 00:00:00.000") (lit r"n ") (lit r"2")
     (lit r"Created") (by decide)).1,
   (c7_amended exRunCE exHeaderX (lit r"2025-01-01 00:00:00.000") (lit r"n ") (lit r"2")
     (lit r"Created") (by decide)).2.2.2.2.1,
   (c7_amended exRunCE exHeaderX (lit r"2025-01-01 00:00:00.000") (lit r"n ") (lit r"2")
     (lit r"Created") (by decide)).2.2.2.2.2.2.1,
   (c7_amended exRunCE exHeaderX (lit r"2025-01-01 00:00:00.000") (lit r"n ") (lit r"2")
     (lit r"Created") (by decide)).2.2.2.2.2.2.2.1⟩

/-- C8 counterexample: a `Service` line followed by two bare parenthesised
lines appends both — the continuation line does not reset the marker, so the
second consecutive parenthesised line is appended too, refuting the claim. -/
theorem c8_counterexample :
    ((run initState [Act.feed exHeaderX, Act.feed exService, Act.feed exParenA,
      Act.feed exParenB]).currentEvent.getD evDefault).headers
      = [(lit r"Service", lit r"foo (a) (b)")] ∧
    (run initState [Act.feed exHeaderX, Act.feed exService, Act.feed exParenA,
      Act.feed exParenB]).lastStructuralKey = some SKey.service := by
  decide

/-- C8 (amended): while an event is under construction, a `Service <value>`
line followed by a bare parenthesised continuation line yields the single
`Service` header value `"<value> (<inner>)"`; the continuation line leaves the
"expect continuation" marker set (it does not reset it), so further
consecutive parenthesised lines would be appended as well. -/
theorem c8_amended (s : PState) (ev : ExchangeEvent) (l1 l2 v p : Str)
    (hcur : s.currentEvent = some ev)
    (hh1 : headerParse (preprocess l1) = none)
    (hx1 : tryExtractExchangeId l1 = none)
    (hk1 : tryExtractHeader l1 = none)
    (he1 : kwValueMatch (lit r"Endpoint") (preprocess l1) = none)
    (hs1 : kwValueMatch (lit r"Service") (preprocess l1) = some v)
    (hh2 : headerParse (preprocess l2) = none)
    (hx2 : tryExtractExchangeId l2 = none)
    (hk2 : tryExtractHeader l2 = none)
    (he2 : kwValueMatch (lit r"Endpoint") (preprocess l2) = none)
    (hs2 : kwValueMatch (lit r"Service") (preprocess l2) = none)
    (hp2 : parenOnlyMatch (preprocess l2) = some p)
    (htv : trimWs v ≠ []) :
    hLookup (((run s [Act.feed l1, Act.feed l2]).currentEvent.getD evDefault).headers)
        (lit r"Service") = some (trimWs v ++ ' ' :: '(' :: p ++ [')']) ∧
    (run s [Act.feed l1, Act.feed l2]).lastStructuralKey = some SKey.service := by
  have hst1 : structuralApply l1 s.lastStructuralKey ev.headers =
      some (setHeader ev.headers (lit r"Service") (trimWs v), some SKey.service) := by
    unfold structuralApply
    dsimp only
    rw [he1, hs1]
  have hf1 := feed_structural hh1 hcur hx1 hk1 hst1
  set H1 := setHeader ev.headers (lit r"Service") (trimWs v) with hH1
  have hcur1 : (feed s l1).currentEvent = some { ev with headers := H1 } := by
    rw [hf1]
  have hkey1 : (feed s l1).lastStructuralKey = some SKey.service := by
    rw [hf1]
  have hprev : hLookup H1 (lit r"Service") = some (trimWs v) :=
    hLookup_setHeader_same ev.headers (lit r"Service") (trimWs v)
  have hst2 : structuralApply l2 (feed s l1).lastStructuralKey
      ({ ev with headers := H1 } : ExchangeEvent).headers =
      some (setHeader H1 (lit r"Service") (trimWs v ++ ' ' :: '(' :: p ++ [')']),
        some SKey.service) := by
    rw [hkey1]
    unfold structuralApply
    dsimp only
    rw [he2, hs2, hp2]
    simp [hprev, htv]
  have hf2 := feed_structural hh2 hcur1 hx2 hk2 hst2
  show hLookup (((feed (feed s l1) l2).currentEvent.getD evDefault).headers) _ = _ ∧
    (feed (feed s l1) l2).lastStructuralKey = some SKey.service
  rw [hf2]
  constructor
  · simp only [Option.getD_some]
    exact hLookup_setHeader_same H1 (lit r"Service") (trimWs v ++ ' ' :: '(' :: p ++ [')'])
  · rfl

/-- C8 witness at concrete `Service` and continuation lines. -/
theorem c8_amended_witness :
    exRunH.currentEvent = some exEvH ∧
    kwValueMatch (lit r"Service") (preprocess exService) = some (lit r"foo") ∧
    parenOnlyMatch (preprocess exParenP) = some (lit r"protocol=http") ∧
    hLookup (((run exRunH [Act.feed exService, Act.feed exParenP]).currentEvent.getD
        evDefault).headers) (lit r"Service")
      = some (trimWs (lit r"foo") ++ ' ' :: '(' :: (lit r"protocol=http") ++ [')']) ∧
    (run exRunH [Act.feed exService, Act.feed exParenP]).lastStructuralKey =
      some SKey.service :=
  ⟨by decide, by decide, by decide,
   (c8_amended exRunH exEvH exService exParenP (lit r"foo") (lit r"protocol=http")
     (by decide) (by decide) (by decide) (by decide) (by decide) (by decide) (by decide)
     (by decide) (by decide) (by decide) (by decide) (by decide) (by decide)).1,
   (c8_amended exRunH exEvH exService exParenP (lit r"foo") (lit r"protocol=http")
     (by decide) (by decide) (by decide) (by decide) (by decide) (by decide) (by decide)
     (by decide) (by decide) (by decide) (by decide) (by decide) (by decide)).2⟩

/-- C9 counterexample: an `Exchange` line behind a log prefix begins with the
marker after preprocessing and contains a qualifying token, but the raw-line
pretest fails, so the parser leaves the exchange id empty — refuting the claim
as stated for lines classified via their preprocessed form. -/
theorem c9_counterexample :
    stripLogTag (preprocess exExchangePrefixed) = preprocess exExchangePrefixed ∧
    (preprocess exExchangePrefixed).take 8 = lit r"Exchange" ∧
    specLastIdToken exExchangePrefixed = some exIdTok ∧
    ((run initState [Act.feed exHeaderX, Act.feed exExchangePrefixed]).currentEvent.getD
      evDefault).exchangeId = [] := by
  decide

/-- C9 (amended): for every line whose RAW text passes the `^\s*Exchange\s+`
pretest, fed while an event is under construction and not recognized as a
header line, the recorded id is exactly the last whitespace-delimited token of
the preprocessed line that contains a hyphen, consists only of alphanumerics
and hyphens, and has length at least 16; if no such token exists the exchange
id is unchanged.  Lines that begin with `Exchange` only after preprocessing
fail the raw pretest and never update the id. -/
theorem c9_amended (s : PState) (ev : ExchangeEvent) (l : Str)
    (hcur : s.currentEvent = some ev)
    (hh : headerParse (preprocess l) = none)
    (hpre : kwPretest (lit r"Exchange") l = true) :
    ∃ ev', (feed s l).currentEvent = some ev' ∧
      ev'.exchangeId = (specLastIdToken l).getD ev.exchangeId := by
  rw [feed_nh_some hh hcur]
  obtain ⟨ev', k1, _, _, kx, _⟩ := contentStep_char l hcur
  refine ⟨ev', k1, ?_⟩
  rw [kx, specLastIdToken_eq]
  unfold tryExtractExchangeId
  rw [if_pos hpre]

/-- C9 witness at the concrete `Exchange` line. -/
theorem c9_amended_witness :
    exRunH.currentEvent = some exEvH ∧
    kwPretest (lit r"Exchange") exExchange = true ∧
    ∃ ev', (feed exRunH exExchange).currentEvent = some ev' ∧
      ev'.exchangeId = (specLastIdToken exExchange).getD exEvH.exchangeId :=
  ⟨by decide, by decide,
   c9_amended exRunH exEvH exExchange (by decide) (by decide) (by decide)⟩

/-! ## Claim C10 -/

theorem c10Inv_drop {base : Nat} {s : PState} {out : List EmitRec}
    (hb : base ≤ s.outputs.length) :
    (s.outputs ++ out).drop base = s.outputs.drop base ++ out :=
  List.drop_append_of_le_length hb

theorem c10Inv_step {G base : Nat} {s : PState} (h : c10Inv G base s) (a : Act)
    (ha : ∀ l, a = Act.feed l → ∀ m2, tryParseBodyMarker l = some m2 → m2.bytes = none) :
    c10Inv G base (applyAct s a) := by
  obtain ⟨hb, htr, hle, hcur⟩ := h
  cases a with
  | fireCompletion =>
    obtain ⟨hg, _, _, hbody, hexp, hlive, hzero, h8⟩ := fireCompletion_char s
    by_cases hG : s.gen = G
    · obtain ⟨hE, hB, hL⟩ := hcur hG
      rw [show applyAct s Act.fireCompletion = fireCompletion s from rfl, hzero hL]
      exact ⟨hb, htr, hle, fun _ => ⟨hE, hB, hL⟩⟩
    · show c10Inv G base (fireCompletion s)
      rcases h8 with ⟨ho, _⟩ | ⟨ev, _, _, _, _, r, hr1, hr2, _, _⟩
      · refine ⟨by rw [ho]; exact hb, by rw [ho]; exact htr, by rw [hg]; exact hle, ?_⟩
        intro hG2
        rw [hg] at hG2
        exact absurd hG2 hG
      · refine ⟨?_, ?_, by rw [hg]; exact hle, ?_⟩
        · rw [hr1, List.length_append]
          omega
        · rw [hr1, c10Inv_drop hb]
          intro x hx hxg
          rcases List.mem_append.mp hx with hx2 | hx2
          · exact htr x hx2 hxg
          · rw [List.mem_singleton.mp hx2] at hxg
            rw [hr2] at hxg
            exact absurd hxg hG
        · intro hG2
          rw [hg] at hG2
          exact absurd hG2 hG
  | fireBodyIdle =>
    obtain ⟨hg, _, _, hbody, hexp, hlive, h8⟩ := fireBodyIdle_char s
    show c10Inv G base (fireBodyIdle s)
    rcases h8 with ⟨ho, _⟩ | ⟨ev, _, _, _, _, r, hr1, hr2, hr3, _⟩
    · refine ⟨by rw [ho]; exact hb, by rw [ho]; exact htr, by rw [hg]; exact hle, ?_⟩
      intro hG2
      rw [hg] at hG2
      obtain ⟨hE, hB, hL⟩ := hcur hG2
      exact ⟨hexp.trans hE, hbody.trans hB, hlive.trans hL⟩
    · refine ⟨?_, ?_, by rw [hg]; exact hle, ?_⟩
      · rw [hr1, List.length_append]
        omega
      · rw [hr1, c10Inv_drop hb]
        intro x hx hxg
        rcases List.mem_append.mp hx with hx2 | hx2
        · exact htr x hx2 hxg
        · rw [List.mem_singleton.mp hx2]
          rw [hr3]
          exact Or.inl rfl
      · intro hG2
        rw [hg] at hG2
        obtain ⟨hE, hB, hL⟩ := hcur hG2
        exact ⟨hexp.trans hE, hbody.trans hB, hlive.trans hL⟩
  | done =>
    show c10Inv G base (flushCurrentEvent s)
    rcases hc : s.currentEvent with _ | ev
    · rw [flush_none hc]
      exact ⟨hb, htr, hle, hcur⟩
    · obtain ⟨_, fg, _, _, _, _, fl, _, fe, fb, f11⟩ := flush_char hc
      refine ⟨?_, ?_, by rw [fg]; exact hle, ?_⟩
      · rw [f11, List.length_append]
        omega
      · rw [f11, c10Inv_drop hb]
        intro x hx hxg
        rcases List.mem_append.mp hx with hx2 | hx2
        · exact htr x hx2 hxg
        · split at hx2
          · rw [List.mem_singleton.mp hx2]
            exact Or.inr rfl
          · exact absurd hx2 (by simp)
      · intro hG2
        rw [fg] at hG2
        obtain ⟨hE, hB, hL⟩ := hcur hG2
        refine ⟨fe.trans hE, fb.trans hB, ?_⟩
        rw [fl, hL]
        simp
  | feed l =>
    show c10Inv G base (feed s l)
    rcases hh : headerParse (preprocess l) with _ | g
    · rcases hc : s.currentEvent with _ | ev
      · rw [feed_nh_none hh hc]
        exact ⟨hb, htr, hle, hcur⟩
      · rw [feed_nh_some hh hc]
        obtain ⟨ev', _, kg, _, _, _, kb, kexp, klive, k9⟩ := contentStep_char l hc
        have hexp' : s.gen = G → (contentStep s ev l).expectedBodyBytes = none := by
          intro hG2
          obtain ⟨hE, _, _⟩ := hcur hG2
          rcases kexp with ke | ⟨meta2, hm2, ke⟩
          · exact ke.trans hE
          · rw [ke]
            exact ha l rfl meta2 hm2
        rcases k9 with ⟨ko, _⟩ | ⟨_, _, _, ⟨n, hn⟩, r, kr1, kr2, _, _⟩
        · refine ⟨by rw [ko]; exact hb, by rw [ko]; exact htr, by rw [kg]; exact hle, ?_⟩
          intro hG2
          rw [kg] at hG2
          obtain ⟨hE, hB, hL⟩ := hcur hG2
          refine ⟨hexp' hG2, kb hB, ?_⟩
          have := klive hB
          omega
        · by_cases hG : s.gen = G
          · obtain ⟨hE, _, _⟩ := hcur hG
            rw [hE] at hn
            exact absurd hn (by simp)
          · refine ⟨?_, ?_, by rw [kg]; exact hle, ?_⟩
            · rw [kr1, List.length_append]
              omega
            · rw [kr1, c10Inv_drop hb]
              intro x hx hxg
              rcases List.mem_append.mp hx with hx2 | hx2
              · exact htr x hx2 hxg
              · rw [List.mem_singleton.mp hx2] at hxg
                rw [kr2] at hxg
                exact absurd hxg hG
            · intro hG2
              rw [kg] at hG2
              exact absurd hG2 hG
    · obtain ⟨ts, node, idx, tail⟩ := g
      rw [feed_header hh]
      rcases hc : s.currentEvent with _ | ev
      · rw [if_neg (by simp)]
        obtain ⟨g1, _, _, _, _, _, _, _, _, _, _, g12⟩ := startHeader_char s ts node idx tail
        refine ⟨by rw [g12]; exact hb, by rw [g12]; exact htr, by rw [g1]; omega, ?_⟩
        intro hG2
        rw [g1] at hG2
        omega
      · rw [if_pos (by rfl)]
        obtain ⟨g1, _, _, _, _, _, _, _, _, _, _, g12⟩ :=
          startHeader_char (flushCurrentEvent s) ts node idx tail
        obtain ⟨_, fg, _, _, _, _, _, _, _, _, f11⟩ := flush_char hc
        refine ⟨?_, ?_, ?_, ?_⟩
        · rw [g12, f11, List.length_append]
          omega
        · rw [g12, f11, c10Inv_drop hb]
          intro x hx hxg
          rcases List.mem_append.mp hx with hx2 | hx2
          · exact htr x hx2 hxg
          · split at hx2
            · rw [List.mem_singleton.mp hx2]
              exact Or.inr rfl
            · exact absurd hx2 (by simp)
        · rw [g1, fg]
          omega
        · intro hG2
          rw [g1, fg] at hG2
          omega

theorem c10Inv_run {G base : Nat} {s : PState} (h : c10Inv G base s) (acts : List Act)
    (ha : ∀ l, Act.feed l ∈ acts → ∀ m2, tryParseBodyMarker l = some m2 → m2.bytes = none) :
    c10Inv G base (run s acts) := by
  induction acts generalizing s with
  | nil => exact h
  | cons a r ih =>
    show c10Inv G base (run (applyAct s a) r)
    refine ih (c10Inv_step h a ?_) ?_
    · intro l hl m2 hm2
      exact ha l (by rw [hl]; simp) m2 hm2
    · intro l hl m2 hm2
      exact ha l (by simp [hl]) m2 hm2

/-- C10 counterexample: a header with `Completed` status, an `Exchange` id
line, the armed early-completion timer firing, then a size-only `Body` marker:
the event carrying a size-only body marker was delivered by the
early-completion timer, not by the body-idle timer or a flush. -/
theorem c10_counterexample :
    tryParseBodyMarker exMarkerS5 =
      some { type := some (lit r"String"), bytes := none, size := some 5 } ∧
    ((run initState [Act.feed exHeaderC, Act.feed exExchange, Act.fireCompletion,
        Act.feed exMarkerS5, Act.feed (lit r"xy"), Act.done]).outputs).map
      (fun r => r.trigger) = [Trigger.completion] := by
  decide

/-- C10 (amended): when a `Body` marker carrying no `bytes` annotation is
consumed, the expected-byte counter stays unset and only a `BodyType` header
can be stored (no `BodyBytes`); and provided at most the handle-held
early-completion timer is pending at that point, every delivery of this
event made after the marker — through any continuation that feeds no
bytes-carrying body marker — comes from the body-idle timer or a flush.
(An early-completion delivery made before the marker, or a leaked timer armed
twice before it, is not excluded, which is what the counterexample shows.) -/
theorem c10_amended (s : PState) (ev : ExchangeEvent) (m : Str) (meta : BodyMeta)
    (acts : List Act)
    (hcur : s.currentEvent = some ev)
    (hmh : headerParse (preprocess m) = none)
    (hmx : tryExtractExchangeId m = none)
    (hmk : tryExtractHeader m = none)
    (hms : structuralApply m s.lastStructuralKey ev.headers = none)
    (hmm : tryParseBodyMarker m = some meta)
    (hmb : meta.bytes = none)
    (hlive : s.completionLive ≤ (if s.completionHandle then 1 else 0))
    (hacts : ∀ l, Act.feed l ∈ acts → ∀ m2, tryParseBodyMarker l = some m2 →
      m2.bytes = none) :
    (feed s m).expectedBodyBytes = none ∧
    (∀ k, k ≠ lit r"BodyType" →
      hLookup (((feed s m).currentEvent.getD evDefault).headers) k = hLookup ev.headers k) ∧
    (∀ r ∈ (run (feed s m) acts).outputs.drop s.outputs.length,
       r.gen = s.gen → r.trigger = Trigger.bodyIdle ∨ r.trigger = Trigger.flush) := by
  rw [feed_marker hmh hcur hmx hmk hms hmm]
  obtain ⟨m1, m2, m3, m4, m5, m6, m7, m8, m9, m10, m11, m12⟩ := markerStep_char s ev meta
  refine ⟨by rw [m6, hmb], ?_, ?_⟩
  · intro k hk
    rw [m1]
    simp only [Option.getD_some]
    rw [hmb]
    rcases meta.type with _ | t
    · rfl
    · exact hLookup_setHeader_other ev.headers (lit r"BodyType") t k hk
  · have hinv : c10Inv s.gen s.outputs.length (markerStep s ev meta) := by
      refine ⟨by rw [m3], ?_, by rw [m2], ?_⟩
      · rw [m3]
        simp
      · intro _
        refine ⟨by rw [m6, hmb], m5, ?_⟩
        rw [m9]
        omega
    obtain ⟨_, htr, _, _⟩ := c10Inv_run hinv acts hacts
    exact htr

/-- C10 witness: a size-only marker fed to a state holding one armed completion
timer, followed by a body line, a body-idle firing, and `done()`. -/
theorem c10_amended_witness :
    exRunCE.currentEvent = some exEvCE ∧
    tryParseBodyMarker exMarkerS5 =
      some { type := some (lit r"String"), bytes := none, size := some 5 } ∧
    ((feed exRunCE exMarkerS5).expectedBodyBytes = none ∧
     (∀ k, k ≠ lit r"BodyType" →
       hLookup (((feed exRunCE exMarkerS5).currentEvent.getD evDefault).headers) k =
         hLookup exEvCE.headers k) ∧
     (∀ r ∈ (run (feed exRunCE exMarkerS5) [Act.feed (lit r"xy"), Act.fireBodyIdle,
          Act.done]).outputs.drop exRunCE.outputs.length,
        r.gen = exRunCE.gen →
        r.trigger = Trigger.bodyIdle ∨ r.trigger = Trigger.flush)) :=
  ⟨by decide, by decide,
   c10_amended exRunCE exEvCE exMarkerS5
     { type := some (lit r"String"), bytes := none, size := some 5 }
     [Act.feed (lit r"xy"), Act.fireBodyIdle, Act.done]
     (by decide) (by decide) (by decide) (by decide) (by decide) (by decide) rfl
     (by decide)
     (by
       intro l hl m2 hm2
       simp only [List.mem_cons, List.not_mem_nil, or_false] at hl
       rcases hl with h1 | h1 | h1
       · cases h1
         rw [(by decide : tryParseBodyMarker (lit r"xy") = none)] at hm2
         exact absurd hm2 (by simp)
       · exact absurd h1 (by simp)
       · exact absurd h1 (by simp))⟩

/-! ## Claim C5 -/

theorem byteLenStr_append (a b : Str) : byteLenStr (a ++ b) = byteLenStr a + byteLenStr b := by
  unfold byteLenStr
  rw [List.map_append, List.sum_append]

theorem byteLenStr_newline_cons (x : Str) : byteLenStr ('\n' :: x) = 1 + byteLenStr x := rfl

theorem joinNL_cons_of_ne {a : Str} {rest : List Str} (h : rest ≠ []) :
    joinNL (a :: rest) = a ++ '\n' :: joinNL rest := by
  cases rest with
  | nil => exact absurd rfl h
  | cons b r => rfl

theorem joinNL_append_singleton {c : List Str} (x : Str) (h : c ≠ []) :
    joinNL (c ++ [x]) = joinNL c ++ '\n' :: x := by
  induction c with
  | nil => exact absurd rfl h
  | cons a c' ih =>
    cases hc : c' with
    | nil => rfl
    | cons b r =>
      subst hc
      rw [List.cons_append, joinNL_cons_of_ne (by simp), joinNL_cons_of_ne (by simp),
        ih (by simp)]
      simp

theorem structuralApply_none_of_inert {l : Str}
    (he : kwValueMatch (lit r"Endpoint") (preprocess l) = none)
    (hs : kwValueMatch (lit r"Service") (preprocess l) = none)
    (hp : parenOnlyMatch (preprocess l) = none)
    (hm : messageMatch (preprocess l) = none)
    (hx : kwPretest (lit r"Exchange") (preprocess l) = false) :
    ∀ (k : Option SKey) (hs2 : List (Str × Str)), structuralApply l k hs2 = none := by
  intro k hs2
  unfold structuralApply
  dsimp only
  rw [he, hs, hp]
  show structuralApply.matchMessageOrExchange (preprocess l) hs2 = none
  unfold structuralApply.matchMessageOrExchange
  rw [hm, hx]
  simp

/-- `bodyAppendStep` without reaching the expected size: pure accumulation. -/
theorem bodyAppendStep_noEmit {s : PState} {ev : ExchangeEvent} {l : Str} {N : Nat}
    (hE : s.expectedBodyBytes = some N)
    (hlt : s.accumulatedBodyBytes +
      (if ev.body.length > 0 then 1 + byteLenStr l else byteLenStr l) < N) :
    bodyAppendStep s ev l =
      { s with
        currentEvent := some { ev with
          body := if ev.body.length > 0 then ev.body ++ '\n' :: l else l },
        accumulatedBodyBytes := s.accumulatedBodyBytes +
          (if ev.body.length > 0 then 1 + byteLenStr l else byteLenStr l),
        bodyIdleLive := s.bodyIdleLive - (if s.bodyIdleHandle then 1 else 0) + 1,
        bodyIdleHandle := true } := by
  unfold bodyAppendStep
  dsimp only
  rw [hE]
  dsimp only
  rw [if_neg ?_]
  intro hcond
  exact absurd hcond.1 (by omega)

/-- `bodyAppendStep` reaching the expected size: synchronous exact-size emit. -/
theorem bodyAppendStep_emit {s : PState} {ev : ExchangeEvent} {l : Str} {N : Nat}
    (hE : s.expectedBodyBytes = some N)
    (hge : N ≤ s.accumulatedBodyBytes +
      (if ev.body.length > 0 then 1 + byteLenStr l else byteLenStr l))
    (hid : ev.exchangeId ≠ []) (hem : s.currentEmitted = false) :
    (bodyAppendStep s ev l).outputs = s.outputs ++
      [{ gen := s.gen, timestamp := ev.timestamp, step := ev.step, status := ev.status,
         headers := ev.headers,
         body := if ev.body.length > 0 then ev.body ++ '\n' :: l else l,
         exchangeId := ev.exchangeId, trigger := Trigger.exactSize }] := by
  unfold bodyAppendStep
  dsimp only
  rw [hE]
  dsimp only
  rw [if_pos ⟨hge, hid, hem⟩]
  simp [emit, clearCompletion]

/-- The body-accumulation loop behind C5: feeding the remaining inert body
lines from a mid-body state emits exactly once, synchronously at the line
whose bytes reach the expected count, with the newline-joined body. -/
theorem c5_loop (N G : Nat) (t : Str) (O : List EmitRec) (ht : t ≠ []) :
    ∀ (rest consumed : List Str) (s2 : PState) (ev2 : ExchangeEvent),
    rest ≠ [] →
    (∀ l ∈ rest, inertLine l) →
    s2.currentEvent = some ev2 →
    s2.isInBody = true →
    s2.expectedBodyBytes = some N →
    s2.currentEmitted = false →
    s2.gen = G →
    s2.outputs = O →
    s2.accumulatedBodyBytes = byteLenStr ev2.body →
    ev2.exchangeId = t →
    ev2.body = joinNL consumed →
    (consumed = [] → rest.headD [] ≠ []) →
    (consumed ≠ [] → ev2.body ≠ []) →
    (∀ j, j + 1 < rest.length → byteLenStr (joinNL (consumed ++ rest.take (j + 1))) < N) →
    (N ≤ byteLenStr (joinNL (consumed ++ rest))) →
    ∃ r,
      (run s2 (rest.map Act.feed)).outputs = O ++ [r] ∧
      (run s2 (rest.dropLast.map Act.feed)).outputs = O ∧
      r.trigger = Trigger.exactSize ∧
      r.body = joinNL (consumed ++ rest) ∧
      r.exchangeId = t ∧
      r.gen = G := by
  intro rest
  induction rest with
  | nil => intro _ _ _ hne; exact absurd rfl hne
  | cons x xs ih =>
    intro consumed s2 ev2 _ hinert hcur hbody hexp hemit hgen houts hacc hid hjoin hfst hne2
      hlt hge
    obtain ⟨ix1, ix2, ix3, ix4, ix5, ix6, ix7, ix8, ix9⟩ := hinert x (by simp)
    have hst := structuralApply_none_of_inert ix4 ix5 ix6 ix7 ix8 s2.lastStructuralKey ev2.headers
    have hfeed := feed_inert_body ix1 hcur ix2 ix3 hst ix9 hbody
    have hgrow : (if ev2.body.length > 0 then ev2.body ++ '\n' :: x else x) =
        joinNL (consumed ++ [x]) := by
      cases hcons : consumed with
      | nil =>
        rw [hcons] at hjoin
        simp [hjoin, joinNL]
      | cons c0 cr =>
        have hnn : ev2.body ≠ [] := hne2 (by simp [hcons])
        rw [if_pos (by cases hb2 : ev2.body; exact absurd hb2 hnn; simp [hb2])]
        rw [hjoin, joinNL_append_singleton x (by simp [hcons]), hcons]
    have haccgrow : s2.accumulatedBodyBytes +
        (if ev2.body.length > 0 then 1 + byteLenStr x else byteLenStr x) =
        byteLenStr (joinNL (consumed ++ [x])) := by
      cases hcons : consumed with
      | nil =>
        rw [hcons] at hjoin
        rw [hacc, hjoin]
        simp [joinNL, byteLenStr]
      | cons c0 cr =>
        have hnn : ev2.body ≠ [] := hne2 (by simp [hcons])
        rw [hacc, if_pos (by cases hb2 : ev2.body; exact absurd hb2 hnn; simp [hb2])]
        rw [hjoin, joinNL_append_singleton x (by simp [hcons]), hcons]
        rw [byteLenStr_append, byteLenStr_newline_cons]
    cases xs with
    | nil =>
      have hge1 : N ≤ s2.accumulatedBodyBytes +
          (if ev2.body.length > 0 then 1 + byteLenStr x else byteLenStr x) := by
        rw [haccgrow]
        simpa using hge
      have hout := bodyAppendStep_emit hexp hge1 (by rw [hid]; exact ht) hemit
      refine ⟨{ gen := s2.gen, timestamp := ev2.timestamp, step := ev2.step,
                status := ev2.status, headers := ev2.headers,
                body := if ev2.body.length > 0 then ev2.body ++ '\n' :: x else x,
                exchangeId := ev2.exchangeId, trigger := Trigger.exactSize },
        ?_, ?_, rfl, ?_, hid, hgen⟩
      · show (feed s2 x).outputs = O ++ _
        rw [hfeed, hout, houts]
      · show (run s2 ([] : List Act)).outputs = O
        exact houts
      · show (if ev2.body.length > 0 then ev2.body ++ '\n' :: x else x) = joinNL (consumed ++ [x])
        exact hgrow
    | cons y ys =>
      have hlt1 : s2.accumulatedBodyBytes +
          (if ev2.body.length > 0 then 1 + byteLenStr x else byteLenStr x) < N := by
        rw [haccgrow]
        have := hlt 0 (by simp)
        simpa using this
      have hstep := bodyAppendStep_noEmit hexp hlt1
      have hyy : (y :: ys) ≠ ([] : List Str) := by simp
      have hres := ih (consumed ++ [x])
        (bodyAppendStep s2 ev2 x)
        { ev2 with body := if ev2.body.length > 0 then ev2.body ++ '\n' :: x else x }
        hyy
        (fun l hl => hinert l (by simp [hl]))
        (by rw [hstep])
        (by rw [hstep]; exact hbody)
        (by rw [hstep]; exact hexp)
        (by rw [hstep]; exact hemit)
        (by rw [hstep]; exact hgen)
        (by rw [hstep]; exact houts)
        (by rw [hstep]; dsimp only; rw [hgrow]; exact haccgrow)
        hid
        hgrow
        (by intro hc; exact absurd hc (by simp))
        (by
          intro _
          rw [hgrow]
          cases hcons : consumed with
          | nil =>
            rw [hcons] at hfst
            have hx0 : x ≠ [] := by simpa using hfst rfl
            simp [joinNL]
            exact hx0
          | cons c0 cr =>
            rw [joinNL_append_singleton x (by simp [hcons])]
            simp)
        (by
          intro j hj
          have h2 := hlt (j + 1) (by simp at hj ⊢; omega)
          have heq : consumed ++ (x :: y :: ys).take (j + 1 + 1) =
              (consumed ++ [x]) ++ (y :: ys).take (j + 1) := by
            rw [List.take_succ_cons, List.append_assoc]
            rfl
          rw [heq] at h2
          exact h2)
        (by
          rw [List.append_assoc]
          simpa using hge)
      obtain ⟨r, hr1, hr2, hr3, hr4, hr5, hr6⟩ := hres
      refine ⟨r, ?_, ?_, hr3, ?_, hr5, hr6⟩
      · show (run (feed s2 x) ((y :: ys).map Act.feed)).outputs = O ++ [r]
        rw [hfeed]
        exact hr1
      · show (run (feed s2 x) (((y :: ys).dropLast).map Act.feed)).outputs = O
        rw [hfeed]
        exact hr2
      · rw [hr4, List.append_assoc]
        simp

/-- C5 counterexample: with body lines `""` and `"a"` and `Body (String)
(bytes: 2)`, the claim's byte accounting (line lengths plus one per joining
newline) reaches N = 2 at the second body line, yet the parser — whose
append skips the newline while the accumulated body is still empty — emits
nothing in that feed call (no timer fired, outputs stay empty). -/
theorem c5_counterexample :
    byteLenStr (joinNL [[], lit r"a"]) = 2 ∧
    ((run initState (List.map Act.feed
      [exHeaderX, exExchange, exMarkerB2, [], lit r"a"])).outputs) = [] ∧
    (run initState (List.map Act.feed
      [exHeaderX, exExchange, exMarkerB2, [], lit r"a"])).accumulatedBodyBytes = 1 := by
  decide

/-- C5 (amended): feeding a header line, a line yielding an exchange id, a
`Body` marker with `(bytes: N)`, and inert body lines — the first of them
nonempty — whose newline-joined byte length first reaches `N` at the last
line, delivers the event exactly once, synchronously in the feed call of that
last line (no timer fires: the interaction sequence is feeds only), through
the exact-size trigger, with body equal to the lines joined by newline and the
extracted exchange id.  Nothing is delivered before that call beyond what the
header's own flush produced. -/
theorem c5_amended (s : PState) (h e m t b : Str) (bs : List Str)
    (g : Str × Str × Str × Str) (meta : BodyMeta) (N : Nat)
    (hh : headerParse (preprocess h) = some g)
    (heH : headerParse (preprocess e) = none)
    (heX : tryExtractExchangeId e = some t)
    (heM : tryParseBodyMarker e = none)
    (hmH : headerParse (preprocess m) = none)
    (hmX : tryExtractExchangeId m = none)
    (hmK : tryExtractHeader m = none)
    (hmE : kwValueMatch (lit r"Endpoint") (preprocess m) = none)
    (hmS : kwValueMatch (lit r"Service") (preprocess m) = none)
    (hmP : parenOnlyMatch (preprocess m) = none)
    (hmM : messageMatch (preprocess m) = none)
    (hmXp : kwPretest (lit r"Exchange") (preprocess m) = false)
    (hmB : tryParseBodyMarker m = some meta)
    (hN : meta.bytes = some N)
    (hbody : ∀ l ∈ (b :: bs), inertLine l)
    (hb0 : b ≠ [])
    (hlt : ∀ j, j + 1 < (b :: bs).length →
      byteLenStr (joinNL ((b :: bs).take (j + 1))) < N)
    (hge : N ≤ byteLenStr (joinNL (b :: bs))) :
    ∃ r,
      (run s (List.map Act.feed (h :: e :: m :: b :: bs))).outputs =
        (feed s h).outputs ++ [r] ∧
      (run s (List.map Act.feed (h :: e :: m :: (b :: bs).dropLast))).outputs =
        (feed s h).outputs ∧
      r.trigger = Trigger.exactSize ∧
      r.body = joinNL (b :: bs) ∧
      r.exchangeId = t ∧
      r.gen = (feed s h).gen := by
  obtain ⟨ts, node, idx, tail⟩ := g
  have hsH : feed s h = startHeader (if s.currentEvent.isSome then flushCurrentEvent s else s)
      ts node idx tail := feed_header hh
  obtain ⟨a1, a2, a3, a4, a5, a6, _, _, _, _, _, _⟩ :=
    startHeader_char (if s.currentEvent.isSome then flushCurrentEvent s else s) ts node idx tail
  rw [← hsH] at a1 a2 a3 a4 a5 a6
  obtain ⟨ev0, hcur0⟩ : ∃ x, (feed s h).currentEvent = some x := ⟨_, a2⟩
  have hev0 : ev0 =
      { timestamp := ts,
        step := trimWs node ++ ' ' :: ':' :: ' ' :: idx ++ ' ' :: '-' :: ' ' ::
          stripAnsi (stripParenSuffix (trimWs tail)),
        status := stripAnsi (stripParenSuffix (trimWs tail)),
        headers := [], body := [], exchangeId := [] } :=
    Option.some.inj (hcur0.symm.trans a2)
  have hev0b : ev0.body = [] := by rw [hev0]
  -- the exchange-id line
  have hfe : feed (feed s h) e = contentStep (feed s h) ev0 e := feed_nh_some heH hcur0
  obtain ⟨ev1, b1, b2, b3, b4, b5, b6, b7, b8, b9, b10, b11, b12, b13⟩ :=
    contentStep_noBody_char e hcur0 heM a4
  have hid1 : ev1.exchangeId = t := by
    rw [b2, heX]
    rfl
  have hbody1 : ev1.body = [] := b4.trans hev0b
  -- the body marker line
  have hstm := structuralApply_none_of_inert hmE hmS hmP hmM hmXp
    (contentStep (feed s h) ev0 e).lastStructuralKey ev1.headers
  have hfm : feed (contentStep (feed s h) ev0 e) m =
      markerStep (contentStep (feed s h) ev0 e) ev1 meta :=
    feed_marker hmH b1 hmX hmK hstm hmB
  obtain ⟨m1, m2, m3, m4, m5, m6, m7, _, _, _, _, _⟩ :=
    markerStep_char (contentStep (feed s h) ev0 e) ev1 meta
  obtain ⟨ev2, hcur2⟩ : ∃ x, (markerStep (contentStep (feed s h) ev0 e) ev1 meta).currentEvent
      = some x := ⟨_, m1⟩
  have hev2 : ev2 = { ev1 with headers :=
      (match meta.bytes with
       | some n => setHeader (match meta.type with
           | some tb => setHeader ev1.headers (lit r"BodyType") tb
           | none => ev1.headers) (lit r"BodyBytes") (natDigits n)
       | none => (match meta.type with
           | some tb => setHeader ev1.headers (lit r"BodyType") tb
           | none => ev1.headers)) } :=
    Option.some.inj (hcur2.symm.trans m1)
  have hev2b : ev2.body = [] := by rw [hev2]; exact hbody1
  have hev2id : ev2.exchangeId = t := by rw [hev2]; exact hid1
  have ht : t ≠ [] := (tryExtractExchangeId_trim heX).2
  have hloop := c5_loop N (feed s h).gen t (feed s h).outputs ht (b :: bs) []
    (markerStep (contentStep (feed s h) ev0 e) ev1 meta) ev2
    (by simp)
    hbody
    hcur2
    m5
    (by rw [m6, hN])
    (by rw [m4, b9, a3])
    (by rw [m2, b7])
    (by rw [m3, b8])
    (by rw [m7, hev2b]; rfl)
    hev2id
    (by rw [hev2b]; rfl)
    (by intro _; simpa using hb0)
    (by intro hc; exact absurd rfl hc)
    (by intro j hj; simpa using hlt j hj)
    (by simpa using hge)
  obtain ⟨r, hr1, hr2, hr3, hr4, hr5, hr6⟩ := hloop
  refine ⟨r, ?_, ?_, hr3, by simpa using hr4, hr5, hr6⟩
  · show (run (feed (feed (feed s h) e) m) ((b :: bs).map Act.feed)).outputs = _
    rw [hfe, hfm]
    exact hr1
  · show (run (feed (feed (feed s h) e) m) (((b :: bs).dropLast).map Act.feed)).outputs = _
    rw [hfe, hfm]
    exact hr2

/-- C5 witness: concrete header, exchange, `(bytes: 3)` marker and the single
body line `abc`. -/
theorem c5_amended_witness :
    ∃ r,
      (run initState (List.map Act.feed
        (exHeaderX :: exExchange :: exMarkerB3 :: (lit r"abc") :: []))).outputs =
        (feed initState exHeaderX).outputs ++ [r] ∧
      (run initState (List.map Act.feed
        (exHeaderX :: exExchange :: exMarkerB3 :: ([lit r"abc"]).dropLast))).outputs =
        (feed initState exHeaderX).outputs ∧
      r.trigger = Trigger.exactSize ∧
      r.body = joinNL [lit r"abc"] ∧
      r.exchangeId = exIdTok ∧
      r.gen = (feed initState exHeaderX).gen :=
  c5_amended initState exHeaderX exExchange exMarkerB3 exIdTok (lit r"abc") []
    (lit r"2025-01-01 00:00:00.000", lit r"n ", lit r"2", lit r"Created")
    { type := some (lit r"String"), bytes := some 3, size := none } 3
    (by decide) (by decide) (by decide) (by decide) (by decide) (by decide) (by decide)
    (by decide) (by decide) (by decide) (by decide) (by decide) (by decide) rfl
    (by decide) (by decide)
    (by
      intro j hj
      rw [List.length_singleton] at hj
      exact absurd hj (by omega))
    (by decide)

/-! ## Claim C4 -/

theorem stripAnsiGo_escFree {a : Str} (ha : escFree a) (x : Str) :
    stripAnsiGo AnsiSt.base (a ++ x) = a ++ stripAnsiGo AnsiSt.base x := by
  induction a with
  | nil => rfl
  | cons c r ih =>
    have hc : c ≠ escCh := ha c (by simp)
    have hr : escFree r := fun d hd => ha d (by simp [hd])
    show (ansiStep AnsiSt.base c).1 ++ stripAnsiGo (ansiStep AnsiSt.base c).2 (r ++ x) = _
    unfold ansiStep
    dsimp only
    rw [if_neg hc]
    dsimp only
    rw [ih hr]
    rfl

theorem stripAnsiGo_consumes_seq {ds : Str} (hds : ∀ d ∈ ds, isAnsiParamCh d = true)
    (b : Str) :
    stripAnsiGo AnsiSt.base (ansiSeq ds ++ b) = stripAnsiGo AnsiSt.base b := by
  show stripAnsiGo AnsiSt.base (escCh :: '[' :: (ds ++ ['m']) ++ b) = _
  have hstep1 : stripAnsiGo AnsiSt.base (escCh :: '[' :: (ds ++ ['m']) ++ b) =
      stripAnsiGo (AnsiSt.params []) ((ds ++ ['m']) ++ b) := by
    show (ansiStep AnsiSt.base escCh).1 ++ _ = _
    unfold ansiStep
    dsimp only
    rw [if_pos rfl]
    dsimp only
    show (ansiStep AnsiSt.esc '[').1 ++ _ = _
    unfold ansiStep
    dsimp only
    rw [if_pos rfl]
    rfl
  rw [hstep1]
  clear hstep1
  have main : ∀ (ds2 acc : Str), (∀ d ∈ ds2, isAnsiParamCh d = true) →
      stripAnsiGo (AnsiSt.params acc) ((ds2 ++ ['m']) ++ b) = stripAnsiGo AnsiSt.base b := by
    intro ds2
    induction ds2 with
    | nil =>
      intro acc _
      show (ansiStep (AnsiSt.params acc) 'm').1 ++ _ = _
      unfold ansiStep
      dsimp only
      rw [if_neg (by decide), if_pos rfl]
      rfl
    | cons d r ih =>
      intro acc hall
      show (ansiStep (AnsiSt.params acc) d).1 ++ _ = _
      unfold ansiStep
      dsimp only
      rw [if_pos (hall d (by simp))]
      dsimp only
      exact ih (acc ++ [d]) (fun d2 hd2 => hall d2 (by simp [hd2]))
  exact main ds [] hds

theorem stripAnsi_insert {a b ds : Str} (ha : escFree a) (hds : ∀ d ∈ ds, isAnsiParamCh d = true) :
    stripAnsi (a ++ ansiSeq ds ++ b) = stripAnsi (a ++ b) := by
  unfold stripAnsi
  rw [List.append_assoc, stripAnsiGo_escFree ha, stripAnsiGo_escFree ha,
    stripAnsiGo_consumes_seq hds]

theorem preprocess_insert {a b ds : Str} (ha : escFree a)
    (hds : ∀ d ∈ ds, isAnsiParamCh d = true) :
    preprocess (a ++ ansiSeq ds ++ b) = preprocess (a ++ b) := by
  unfold preprocess
  rw [stripAnsi_insert ha hds]

theorem structuralApply_congr {l1 l2 : Str} (hp : preprocess l1 = preprocess l2) :
    ∀ (k : Option SKey) (hs : List (Str × Str)), structuralApply l1 k hs = structuralApply l2 k hs := by
  intro k hs
  unfold structuralApply
  rw [hp]

theorem tryParseBodyMarker_congr {l1 l2 : Str} (hp : preprocess l1 = preprocess l2) :
    tryParseBodyMarker l1 = tryParseBodyMarker l2 := by
  unfold tryParseBodyMarker
  rw [hp]

/-- C4 counterexample: inserting the complete ANSI colour sequence
`escape [ 3 2 m` in front of an `Exchange` id line leaves the preprocessed
line unchanged, yet the exchange-id extractor — whose pretest runs on the raw
line — no longer matches, so classification and the extracted id change. -/
theorem c4_counterexample :
    stripAnsi (ansiSeq (lit r"32")) = [] ∧
    preprocess (ansiSeq (lit r"32") ++ exExchange) = preprocess exExchange ∧
    tryExtractExchangeId exExchange = some exIdTok ∧
    tryExtractExchangeId (ansiSeq (lit r"32") ++ exExchange) = none := by
  decide

/-- C4 (amended): inserting a complete ANSI colour sequence at any position
whose preceding fragment contains no escape character leaves the preprocessed line
— and with it the header-line detector, all structural extractors and the body
marker detector, and their extracted values — unchanged; the exchange-id and
header key/value extractors, whose pretest runs on the RAW line, are unchanged
exactly when the insertion leaves their raw-line pretest unchanged (an
insertion at or before the leading marker can defeat them). -/
theorem c4_amended (a b ds : Str) (ha : escFree a)
    (hds : ∀ d ∈ ds, isAnsiParamCh d = true) :
    preprocess (a ++ ansiSeq ds ++ b) = preprocess (a ++ b) ∧
    headerParse (preprocess (a ++ ansiSeq ds ++ b)) = headerParse (preprocess (a ++ b)) ∧
    (∀ (k : Option SKey) (hs : List (Str × Str)),
      structuralApply (a ++ ansiSeq ds ++ b) k hs = structuralApply (a ++ b) k hs) ∧
    tryParseBodyMarker (a ++ ansiSeq ds ++ b) = tryParseBodyMarker (a ++ b) ∧
    (kwPretest (lit r"Exchange") (a ++ ansiSeq ds ++ b) =
        kwPretest (lit r"Exchange") (a ++ b) →
      tryExtractExchangeId (a ++ ansiSeq ds ++ b) = tryExtractExchangeId (a ++ b)) ∧
    (kwPretest (lit r"Header") (a ++ ansiSeq ds ++ b) =
        kwPretest (lit r"Header") (a ++ b) →
      tryExtractHeader (a ++ ansiSeq ds ++ b) = tryExtractHeader (a ++ b)) := by
  have hp := @preprocess_insert a b ds ha hds
  refine ⟨hp, by rw [hp], structuralApply_congr hp, tryParseBodyMarker_congr hp, ?_, ?_⟩
  · intro hpre
    unfold tryExtractExchangeId
    rw [hpre, hp]
  · intro hpre
    unfold tryExtractHeader
    rw [hpre, hp]

/-- C4 witness: inserting `escape [ 3 2 m` after the `Exchange ` marker. -/
theorem c4_amended_witness :
    escFree (lit r"Exchange ") ∧
    escFree (lit r"(D) InOnly aaaa-aaaaaaaaaaaa") ∧
    preprocess (lit r"Exchange " ++ ansiSeq (lit r"32") ++
        lit r"(D) InOnly aaaa-aaaaaaaaaaaa") =
      preprocess (lit r"Exchange " ++ lit r"(D) InOnly aaaa-aaaaaaaaaaaa") ∧
    (kwPretest (lit r"Exchange") (lit r"Exchange " ++ ansiSeq (lit r"32") ++
        lit r"(D) InOnly aaaa-aaaaaaaaaaaa") =
      kwPretest (lit r"Exchange") (lit r"Exchange " ++
        lit r"(D) InOnly aaaa-aaaaaaaaaaaa") →
      tryExtractExchangeId (lit r"Exchange " ++ ansiSeq (lit r"32") ++
        lit r"(D) InOnly aaaa-aaaaaaaaaaaa") =
      tryExtractExchangeId (lit r"Exchange " ++ lit r"(D) InOnly aaaa-aaaaaaaaaaaa")) :=
  ⟨by decide, by decide,
   (c4_amended (lit r"Exchange ") (lit r"(D) InOnly aaaa-aaaaaaaaaaaa") (lit r"32")
     (by decide) (by decide)).1,
   (c4_amended (lit r"Exchange ") (lit r"(D) InOnly aaaa-aaaaaaaaaaaa") (lit r"32")
     (by decide) (by decide)).2.2.2.2.1⟩

end KaotoTrace
